import Mathlib

/-!
# Storage quota reconciliation of the ocs-operator

A shallow embedding of `controllers/storagecluster/storagequota.go`:
the functions `ensureCreated`, `ensureDeleted`, `storageQuotaName`,
`resourceRequestName`, `calcUseableCapacity` and `V1ResourceByStorageClass`,
run against an explicit model of the quota client (a named object store whose
operations can fail), and of `metrics/internal/collectors/storagequota.go`:
the collector with `Run`, `Describe`, `Collect` and `collectSumStorageQuotas`,
followed by theorems about them.

Conventions of the embedding.

* Go `int64` values are integers; every `int64` operation is followed by the
  two's complement wrap `toInt64`.
* A `resource.Quantity` is represented by the number it denotes, which is what
  `apiequality.Semantic.DeepEqual` compares.
* Go maps are association lists in a fixed key order without repeated keys, so
  that equality of the lists is equality of the maps; a `range` over a map visits
  the entries in the order of the list.
* `float64` is an arbitrary type with a zero and an addition, and a channel is the
  sequence of the values sent on it.
* Slice indices are natural numbers (an index is below the slice length, so
  `idx+1` stays inside the Go `int` range).
-/

namespace StorageQuota

/-! ## Machine integers -/

/-- Two's complement wrap of an integer into the `int64` range. -/
def toInt64 (x : Int) : Int :=
  (x + 9223372036854775808) % 18446744073709551616 - 9223372036854775808

/-! ## Kubernetes and OpenShift API types used by the reconciler -/

/-- A `resource.Quantity`, represented by the number of base units it denotes
(`1Ti` is `2^40`). -/
structure Quantity where
  value : Int
deriving DecidableEq, Repr

/-- `resource.NewQuantity(value, format)`: the quantity of `value` base units. -/
def NewQuantity (value : Int) : Quantity := ⟨value⟩

/-- `corev1.ResourceName`. -/
abbrev ResourceName := String

/-- `corev1.ResourceList`, a map from resource names to quantities. -/
abbrev ResourceList := List (ResourceName × Quantity)

/-- `corev1.ResourceStorage`. -/
def ResourceStorage : ResourceName := "storage"

/-- `corev1.ResourceRequestsStorage`. -/
def ResourceRequestsStorage : ResourceName := "requests.storage"

/-- A map index expression `m[key]` with the comma-ok result. -/
def ResourceList.get? (m : ResourceList) (key : ResourceName) : Option Quantity :=
  (m.find? (fun kv => kv.1 == key)).map (fun kv => kv.2)

/-- `metav1.LabelSelectorRequirement`, also used for scoped selector requirements. -/
structure LabelSelectorRequirement where
  Key : String
  Operator : String
  Values : List String
deriving DecidableEq, Repr

/-- `metav1.LabelSelector`. -/
structure LabelSelector where
  MatchLabels : List (String × String)
  MatchExpressions : List LabelSelectorRequirement
deriving DecidableEq, Repr

/-- `quotav1.ClusterResourceQuotaSelector`. -/
structure ClusterResourceQuotaSelector where
  LabelSelector : Option LabelSelector
  AnnotationSelector : List (String × String)
deriving DecidableEq, Repr

/-- `corev1.ResourceQuotaSpec`. -/
structure ResourceQuotaSpec where
  Hard : ResourceList
  Scopes : List String := []
  ScopeSelector : Option (List LabelSelectorRequirement) := none
deriving DecidableEq, Repr

/-- `quotav1.ClusterResourceQuotaSpec`. -/
structure ClusterResourceQuotaSpec where
  Selector : ClusterResourceQuotaSelector
  Quota : ResourceQuotaSpec
deriving DecidableEq, Repr

/-- `corev1.ResourceQuotaStatus`. -/
structure ResourceQuotaStatus where
  Hard : ResourceList := []
  Used : ResourceList := []
deriving DecidableEq, Repr

/-- `quotav1.ClusterResourceQuotaStatus`. -/
structure ClusterResourceQuotaStatus where
  Total : ResourceQuotaStatus := {}
deriving DecidableEq, Repr

/-- `metav1.TypeMeta`. -/
structure TypeMeta where
  APIVersion : String := ""
  Kind : String := ""
deriving DecidableEq, Repr

/-- `metav1.ObjectMeta` (the fields a quota object carries in this model). -/
structure ObjectMeta where
  Name : String
  Labels : List (String × String) := []
  ResourceVersion : String := ""
deriving DecidableEq, Repr

/-- `quotav1.ClusterResourceQuota`. -/
structure ClusterResourceQuota where
  TypeMeta : TypeMeta := {}
  ObjectMeta : ObjectMeta
  Spec : ClusterResourceQuotaSpec
  Status : ClusterResourceQuotaStatus := {}
deriving DecidableEq, Repr

/-- The promoted field `Name` of the embedded `ObjectMeta`. -/
def ClusterResourceQuota.Name (o : ClusterResourceQuota) : String := o.ObjectMeta.Name

/-- `ocsv1.StorageDeviceSet`; `Requests` is `DataPVCTemplate.Spec.Resources.Requests`. -/
structure StorageDeviceSet where
  Name : String := ""
  Count : Int := 0
  Replica : Int := 0
  Requests : ResourceList := []
  Portable : Bool := false
  DeviceType : String := ""
deriving DecidableEq, Repr

/-- `ocsv1.OverprovisionSpec`; a nil `Capacity` pointer is `none`. -/
structure OverprovisionSpec where
  StorageClassName : String := ""
  Capacity : Option Quantity := none
  Percentage : Int := 0
  Selector : ClusterResourceQuotaSelector
deriving DecidableEq, Repr

/-- `ocsv1.StorageClusterSpec`. -/
structure StorageClusterSpec where
  StorageDeviceSets : List StorageDeviceSet := []
  Overprovision : List OverprovisionSpec := []
deriving DecidableEq, Repr

/-- `ocsv1.StorageCluster`. -/
structure StorageCluster where
  Name : String
  Spec : StorageClusterSpec
deriving DecidableEq, Repr

/-! ## The quota client: a named object store whose operations can fail -/

/-- Errors returned by the store (`k8s.io/apimachinery/pkg/api/errors`). -/
inductive StatusError where
  | NotFound
  | AlreadyExists
  | Other (code : Nat)
deriving DecidableEq, Repr

/-- `errors.IsNotFound`. -/
def IsNotFound (err : StatusError) : Bool :=
  match err with
  | .NotFound => true
  | _ => false

/-- A request sent to the store. -/
inductive Call where
  | Get (name : String)
  | Create (obj : ClusterResourceQuota)
  | Update (obj : ClusterResourceQuota)
  | Delete (name : String)
deriving DecidableEq, Repr

/-- A request together with the error it returned (`none` for success). -/
structure CallRecord where
  call : Call
  err : Option StatusError
deriving DecidableEq, Repr

/-- The store behind `r.QuotaClient.QuotaV1().ClusterResourceQuotas()`:
the objects it holds, the failures it is going to inject (one entry is consumed
by every request; `some code` makes the request fail with `Other code`
and leaves the objects untouched), and the requests served so far. -/
structure QuotaClient where
  objects : List ClusterResourceQuota := []
  faults : List (Option Nat) := []
  calls : List CallRecord := []
deriving DecidableEq, Repr

/-- The first of `objects` that is named `name`, if any. -/
def findQuota (objects : List ClusterResourceQuota) (name : String) :
    Option ClusterResourceQuota :=
  objects.find? (fun o => o.Name == name)

/-- The object stored under `name`, if any. -/
def QuotaClient.lookup (c : QuotaClient) (name : String) : Option ClusterResourceQuota :=
  findQuota c.objects name

/-- The failure injected into the next request, if any. -/
def QuotaClient.nextFault (c : QuotaClient) : Option StatusError :=
  match c.faults with
  | some code :: _ => some (.Other code)
  | _ => none

/-- Account for one served request: log it, consume one fault entry, install the objects. -/
def QuotaClient.served (c : QuotaClient) (call : Call) (err : Option StatusError)
    (objects : List ClusterResourceQuota) : QuotaClient :=
  { objects := objects, faults := c.faults.tail, calls := c.calls ++ [⟨call, err⟩] }

/-- `Get(ctx, name, opts)`. -/
def QuotaClient.Get (c : QuotaClient) (name : String) :
    Except StatusError ClusterResourceQuota × QuotaClient :=
  match c.nextFault with
  | some e => (.error e, c.served (.Get name) (some e) c.objects)
  | none =>
    match c.lookup name with
    | none => (.error .NotFound, c.served (.Get name) (some .NotFound) c.objects)
    | some o => (.ok o, c.served (.Get name) none c.objects)

/-- `Create(ctx, obj, opts)`. -/
def QuotaClient.Create (c : QuotaClient) (obj : ClusterResourceQuota) :
    Option StatusError × QuotaClient :=
  match c.nextFault with
  | some e => (some e, c.served (.Create obj) (some e) c.objects)
  | none =>
    match c.lookup obj.Name with
    | some _ => (some .AlreadyExists, c.served (.Create obj) (some .AlreadyExists) c.objects)
    | none => (none, c.served (.Create obj) none (c.objects ++ [obj]))

/-- `Update(ctx, obj, opts)`. -/
def QuotaClient.Update (c : QuotaClient) (obj : ClusterResourceQuota) :
    Option StatusError × QuotaClient :=
  match c.nextFault with
  | some e => (some e, c.served (.Update obj) (some e) c.objects)
  | none =>
    match c.lookup obj.Name with
    | none => (some .NotFound, c.served (.Update obj) (some .NotFound) c.objects)
    | some _ =>
      (none, c.served (.Update obj) none
        (c.objects.map (fun o => if o.Name == obj.Name then obj else o)))

/-- `Delete(ctx, name, opts)`. -/
def QuotaClient.Delete (c : QuotaClient) (name : String) :
    Option StatusError × QuotaClient :=
  match c.nextFault with
  | some e => (some e, c.served (.Delete name) (some e) c.objects)
  | none =>
    match c.lookup name with
    | none => (some .NotFound, c.served (.Delete name) (some .NotFound) c.objects)
    | some _ =>
      (none, c.served (.Delete name) none (c.objects.filter (fun o => !(o.Name == name))))

/-- The name of the object a request addresses. -/
def Call.target : Call → String
  | .Get name => name
  | .Create obj => obj.Name
  | .Update obj => obj.Name
  | .Delete name => name

/-- The failed requests on which `ensureCreated` returns: a get failing with an error
other than not-found, a failing create, a failing update. -/
def CallRecord.aborts (rec : CallRecord) : Bool :=
  match rec.call, rec.err with
  | .Get _, some err => !IsNotFound err
  | .Create _, some _ => true
  | .Update _, some _ => true
  | _, _ => false

/-! ## storagequota.go -/

def clusterResourceQuotaKind : String := "ClusterResourceQuota"

def clusterResourceQuotaStorageKey : String := "clusterresourcequota-storage"

/-- `quotav1.SchemeGroupVersion.String()`. -/
def quotaSchemeGroupVersion : String := "quota.openshift.io/v1"

/-- The constant `storageClassSuffix`. -/
def storageClassSuffix : String := ".storageclass.storage.k8s.io/"

/-- `V1ResourceByStorageClass` returns a quota resource name by storage class. -/
def V1ResourceByStorageClass (storageClass : String) (resourceName : ResourceName) :
    ResourceName :=
  storageClass ++ storageClassSuffix ++ resourceName

/-- `storageQuotaName`: `fmt.Sprintf("%s-%s%d", clusterName, clusterResourceQuotaStorageKey, idx+1)`. -/
def storageQuotaName (clusterName : String) (idx : Nat) : String :=
  clusterName ++ "-" ++ clusterResourceQuotaStorageKey ++ toString (idx + 1)

/-- `resourceRequestName`. -/
def resourceRequestName (storageClassName : String) : ResourceName :=
  if storageClassName == "" then ResourceRequestsStorage
  else V1ResourceByStorageClass storageClassName ResourceRequestsStorage

/-- Modelled from the spec: `countAndReplicaOf` is defined in another file of the
package; the spec gives every device set "a requested storage quantity and a replica
count", and the second result is that replica count. -/
def countAndReplicaOf (ds : StorageDeviceSet) : Int × Int := (ds.Count, ds.Replica)

/-- `calcUseableCapacity`.  The parameter `approx` is
`int64(q.AsApproximateFloat64())` of the quantity library. -/
def calcUseableCapacity (approx : Quantity → Int) (sc : StorageCluster) : Int :=
  sc.Spec.StorageDeviceSets.foldl
    (fun useableCapacity ds =>
      match ds.Requests.get? ResourceStorage with
      | some storageQuantity =>
        toInt64 (useableCapacity +
          toInt64 (toInt64 (approx storageQuantity) * toInt64 (countAndReplicaOf ds).2))
      | none => useableCapacity)
    0

/-- The value of `*hardLimit` in `ensureCreated` (lines 29-32): the explicit capacity,
or else the percentage-scaled useable capacity in `int64` arithmetic. -/
def hardLimit (useableCapacity : Int) (op : OverprovisionSpec) : Quantity :=
  match op.Capacity with
  | some capacity => capacity
  | none =>
    NewQuantity (toInt64 (useableCapacity +
      Int.tdiv (toInt64 (toInt64 op.Percentage * useableCapacity)) 100))

/-- The object `storageQuota` built in `ensureCreated` for the policy `op` at `idx`. -/
def storageQuota (clusterName : String) (useableCapacity : Int) (idx : Nat)
    (op : OverprovisionSpec) : ClusterResourceQuota :=
  { TypeMeta := { APIVersion := quotaSchemeGroupVersion, Kind := clusterResourceQuotaKind }
    ObjectMeta := { Name := storageQuotaName clusterName idx }
    Spec :=
      { Selector := op.Selector
        Quota := { Hard := [(resourceRequestName op.StorageClassName,
                             hardLimit useableCapacity op)] } } }

/-- One round of the loop of `ensureCreated`: `some err` is `return err`, `none` is
falling through to the next round. -/
def ensureCreatedStep (clusterName : String) (useableCapacity : Int) (idx : Nat)
    (op : OverprovisionSpec) (r : QuotaClient) : Option StatusError × QuotaClient :=
  let storageQuota := storageQuota clusterName useableCapacity idx op
  match r.Get storageQuota.Name with
  | (.error err, r1) =>
    if !IsNotFound err then (some err, r1)
    else
      match r1.Create storageQuota with
      | (some err, r2) => (some err, r2)
      | (none, r2) => (none, r2)
  | (.ok currentQuota, r1) =>
    if !(decide (storageQuota.Spec = currentQuota.Spec)) then
      match r1.Update { currentQuota with Spec := storageQuota.Spec } with
      | (some err, r2) => (some err, r2)
      | (none, r2) => (none, r2)
    else (none, r1)

/-- The loop `for idx, op := range sc.Spec.Overprovision` of `ensureCreated`,
from index `idx` on. -/
def ensureCreatedLoop (clusterName : String) (useableCapacity : Int) :
    Nat → List OverprovisionSpec → QuotaClient → Option StatusError × QuotaClient
  | _, [], r => (none, r)
  | idx, op :: ops, r =>
    match ensureCreatedStep clusterName useableCapacity idx op r with
    | (some err, r1) => (some err, r1)
    | (none, r1) => ensureCreatedLoop clusterName useableCapacity (idx + 1) ops r1

/-- `ensureCreated` ensures that all ClusterResourceQuota resources exist with their
Spec in the desired state.  The result is the returned error and the client afterwards. -/
def ensureCreated (approx : Quantity → Int) (r : QuotaClient) (sc : StorageCluster) :
    Option StatusError × QuotaClient :=
  ensureCreatedLoop sc.Name (calcUseableCapacity approx sc) 0 sc.Spec.Overprovision r

/-- One round of the loop of `ensureDeleted`. -/
def ensureDeletedStep (clusterName : String) (idx : Nat) (r : QuotaClient) :
    Option StatusError × QuotaClient :=
  let quotaName := storageQuotaName clusterName idx
  match r.Get quotaName with
  | (.ok _, r1) =>
    match r1.Delete quotaName with
    | (some err, r2) => (some err, r2)
    | (none, r2) => (none, r2)
  | (.error _, r1) => (none, r1)

/-- The loop `for idx := range sc.Spec.Overprovision` of `ensureDeleted`. -/
def ensureDeletedLoop (clusterName : String) :
    Nat → List OverprovisionSpec → QuotaClient → Option StatusError × QuotaClient
  | _, [], r => (none, r)
  | idx, _ :: ops, r =>
    match ensureDeletedStep clusterName idx r with
    | (some err, r1) => (some err, r1)
    | (none, r1) => ensureDeletedLoop clusterName (idx + 1) ops r1

/-- `ensureDeleted` deletes all ClusterResourceQuota resources associated with
the StorageCluster. -/
def ensureDeleted (r : QuotaClient) (sc : StorageCluster) :
    Option StatusError × QuotaClient :=
  ensureDeletedLoop sc.Name 0 sc.Spec.Overprovision r

/-! ## Specification-side definitions -/

/-- What one device set contributes to the useable capacity according to the
specification: request times replica count when a storage request is present, else zero. -/
def requestedCapacity (approx : Quantity → Int) (ds : StorageDeviceSet) : Int :=
  match ds.Requests.get? ResourceStorage with
  | some storageQuantity => approx storageQuantity * ds.Replica
  | none => 0

/-- The objects a pass over `ops` starting at index `idx` wants to exist, in order. -/
def desiredFrom (clusterName : String) (useableCapacity : Int) :
    Nat → List OverprovisionSpec → List ClusterResourceQuota
  | _, [] => []
  | idx, op :: ops =>
    storageQuota clusterName useableCapacity idx op ::
      desiredFrom clusterName useableCapacity (idx + 1) ops

/-! ## Test fixtures (storagequota_test.go) -/

def testQuantity1T : Quantity := ⟨1099511627776⟩

def testQuantity2T : Quantity := ⟨2199023255552⟩

/-- The conversion `int64(q.AsApproximateFloat64())` on quantities of whole base units
below `2^53`, where the floating-point value is exact. -/
def approxExact (q : Quantity) : Int := q.value

def testSelector (v : String) : ClusterResourceQuotaSelector :=
  { LabelSelector := some
      { MatchLabels := []
        MatchExpressions := [{ Key := "storagequota_test", Operator := "Exists", Values := [v] }] }
    AnnotationSelector := [] }

/-- The cluster `testStorageClusterWithOverprovision`, with storage class `sc`. -/
def testStorageClusterWithOverprovision (name sc : String) : StorageCluster :=
  { Name := name
    Spec :=
      { StorageDeviceSets :=
          [{ Name := "mock-storagecluster-clusterresourcequota", Count := 3, Replica := 2
             Requests := [(ResourceStorage, testQuantity1T)], Portable := false
             DeviceType := "ssd" }]
        Overprovision :=
          [{ StorageClassName := sc, Capacity := some testQuantity2T
             Selector := testSelector "test1" },
           { StorageClassName := sc, Percentage := 50, Selector := testSelector "test2" }] } }

/-- A stale object under the first quota name of cluster `x`. -/
def staleQuota : ClusterResourceQuota :=
  { ObjectMeta := { Name := "x-clusterresourcequota-storage1", Labels := [("owner", "ocs")] }
    Spec := { Selector := testSelector "old", Quota := { Hard := [] } }
    Status := { Total := { Hard := [("requests.storage", ⟨5⟩)], Used := [] } } }

/-- A store holding the stale object only. -/
def staleClient : QuotaClient := { objects := [staleQuota] }

/-- The fixture cluster named `x` with storage class `gold`. -/
def testCluster : StorageCluster := testStorageClusterWithOverprovision "x" "gold"

/-- The fixture cluster with a second device set that has no storage request. -/
def testClusterTwoSets : StorageCluster :=
  { testCluster with
    Spec := { testCluster.Spec with
      StorageDeviceSets := testCluster.Spec.StorageDeviceSets ++ [{ Name := "bare", Replica := 3 }] } }

/-! ## metrics/internal/collectors/storagequota.go -/

/-- `strings.Contains(s, substr)`: `substr` occurs in `s` as a contiguous block. -/
def strings.Contains (s substr : String) : Bool := decide (substr.data <:+: s.data)

/-- `isStorageResource`. -/
def isStorageResource (resource : ResourceName) : Bool :=
  strings.Contains resource ResourceStorage

/-- A `prometheus.Desc` built by `prometheus.NewDesc(fqName, help, nil, nil)`. -/
structure Desc where
  fqName : String
  help : String
deriving DecidableEq, Repr

/-- `prometheus.ValueType`. -/
inductive ValueType where
  | CounterValue
  | GaugeValue
  | UntypedValue
deriving DecidableEq, Repr

/-- A constant `prometheus.Metric`; `F` stands for `float64`. -/
structure Metric (F : Type) where
  desc : Desc
  valueType : ValueType
  value : F
deriving DecidableEq, Repr

/-- `prometheus.MustNewConstMetric(desc, valueType, value)` for a descriptor without
labels; `none` is the panic on a nil descriptor. -/
def MustNewConstMetric {F : Type} (desc : Option Desc) (valueType : ValueType) (value : F) :
    Option (Metric F) :=
  desc.map (fun d => ⟨d, valueType, value⟩)

/-- The `cache.SharedIndexInformer` of the collector: the objects its indexer holds and
whether `Run` was started on it. -/
structure SharedIndexInformer where
  store : List ClusterResourceQuota := []
  started : Bool := false
deriving DecidableEq, Repr

/-- `StorageQuotaCollector` is a custom collector for ClusterResourceQuota/storage
resources; nil pointers are `none`. -/
structure StorageQuotaCollector where
  QuotaHardDesc : Option Desc := none
  QuotaUsedDesc : Option Desc := none
  Informer : Option SharedIndexInformer := none
  Enabled : Bool := false
deriving DecidableEq, Repr

/-- `NewStorageQuotaCollector`; the argument is the outcome of
`quotaclient.NewForConfig(opts.Kubeconfig)`, `some err` when it failed. -/
def NewStorageQuotaCollector (newForConfigErr : Option String) : StorageQuotaCollector :=
  match newForConfigErr with
  | some _ => {}
  | none =>
    { QuotaHardDesc := some
        { fqName := "ocs_clusterresourcequota_storage_hard"
          help := "OCS hard-limit value for ClusterResourceQuota:storage" }
      QuotaUsedDesc := some
        { fqName := "ocs_clusterresourcequota_storage_used"
          help := "OCS currently-used value for ClusterResourceQuota:storage" }
      Informer := some {}
      Enabled := true }

/-- `Run` starts the informer; `none` is the nil dereference of a missing informer. -/
def StorageQuotaCollector.Run (c : StorageQuotaCollector) : Option StorageQuotaCollector :=
  if c.Enabled then
    match c.Informer with
    | some informer => some { c with Informer := some { informer with started := true } }
    | none => none
  else some c

/-- `Describe`: the collector afterwards and the channel with what was sent appended. -/
def StorageQuotaCollector.Describe (c : StorageQuotaCollector) (ch : List (Option Desc)) :
    StorageQuotaCollector × List (Option Desc) :=
  if c.Enabled then
    let ds := [c.QuotaHardDesc, c.QuotaUsedDesc]
    (c, ds.foldl (fun ch d => ch ++ [d]) ch)
  else (c, ch)

/-- `listStorageQuotas`: the objects of the informer's indexer. -/
def StorageQuotaCollector.listStorageQuotas (c : StorageQuotaCollector) :
    Option (List ClusterResourceQuota) :=
  c.Informer.map (fun informer => informer.store)

/-- One of the two inner loops of `collectSumStorageQuotas`: add the value of every
storage resource of the map `m` to `total`, in the order the map is ranged over. -/
def sumStorageResources {F : Type} (add : F → F → F) (asApproximateFloat64 : Quantity → F)
    (m : ResourceList) (total : F) : F :=
  m.foldl
    (fun total kv => if isStorageResource kv.1 then add total (asApproximateFloat64 kv.2)
      else total)
    total

/-- `collectSumStorageQuotas`; `zero` and `add` are the `float64` zero and addition and
`asApproximateFloat64` is `Quantity.AsApproximateFloat64`. -/
def StorageQuotaCollector.collectSumStorageQuotas {F : Type} (zero : F) (add : F → F → F)
    (asApproximateFloat64 : Quantity → F) (c : StorageQuotaCollector) : Option (F × F) :=
  c.listStorageQuotas.map (fun storageQuotas =>
    storageQuotas.foldl
      (fun (acc : F × F) storageQuota =>
        (sumStorageResources add asApproximateFloat64 storageQuota.Status.Total.Hard acc.1,
         sumStorageResources add asApproximateFloat64 storageQuota.Status.Total.Used acc.2))
      (zero, zero))

/-- `Collect`: the collector afterwards and the channel with what was sent appended. -/
def StorageQuotaCollector.Collect {F : Type} (zero : F) (add : F → F → F)
    (asApproximateFloat64 : Quantity → F) (c : StorageQuotaCollector) (ch : List (Metric F)) :
    Option (StorageQuotaCollector × List (Metric F)) :=
  if c.Enabled then
    match c.collectSumStorageQuotas zero add asApproximateFloat64 with
    | none => none
    | some (hard, used) =>
      match MustNewConstMetric c.QuotaHardDesc .GaugeValue hard with
      | none => none
      | some hardMetric =>
        match MustNewConstMetric c.QuotaUsedDesc .GaugeValue used with
        | none => none
        | some usedMetric => some (c, ch ++ [hardMetric] ++ [usedMetric])
  else some (c, ch)

/-- A cached quota object with the given `status.total` maps. -/
def cachedQuota (name : String) (hard used : ResourceList) : ClusterResourceQuota :=
  { ObjectMeta := { Name := name }
    Spec := { Selector := { LabelSelector := none, AnnotationSelector := [] }, Quota := { Hard := [] } }
    Status := { Total := { Hard := hard, Used := used } } }

/-- The collector built by a successful `NewStorageQuotaCollector`, with its informer in
the state `informer`. -/
def collectorOf (informer : SharedIndexInformer) : StorageQuotaCollector :=
  { NewStorageQuotaCollector none with Informer := some informer }

/-- The enabled collector whose cache holds `objs`. -/
def collectorWith (objs : List ClusterResourceQuota) : StorageQuotaCollector :=
  collectorOf { store := objs, started := true }

/-- The fixture cluster shortened to its first policy (`op[:1]` in the tests). -/
def testClusterOne : StorageCluster :=
  { testCluster with
    Spec := { testCluster.Spec with Overprovision := testCluster.Spec.Overprovision.take 1 } }

/-- The fixture cluster without policies (`op[1:1]` in the tests). -/
def testClusterNone : StorageCluster :=
  { testCluster with Spec := { testCluster.Spec with Overprovision := [] } }

/-- The values that count for a total according to the specification: for every map in
turn, the values of its entries whose key contains `storage`. -/
def storageValues {F : Type} (asApproximateFloat64 : Quantity → F) :
    List ResourceList → List F
  | [] => []
  | m :: ms =>
    ((m.filter (fun kv => isStorageResource kv.1)).map (fun kv => asApproximateFloat64 kv.2))
      ++ storageValues asApproximateFloat64 ms

/-- The two cached objects of the aggregation example: 5Ti under `requests.storage`
and 3Ti under a storage-class key, next to keys that are not storage keys. -/
def testCache : List ClusterResourceQuota :=
  [cachedQuota "q1" [("requests.storage", ⟨5 * 2 ^ 40⟩), ("cpu", ⟨100⟩)]
     [("requests.storage", ⟨2 ^ 40⟩)],
   cachedQuota "q2" [("a.storageclass.storage.k8s.io/requests.storage", ⟨3 * 2 ^ 40⟩)]
     [("pods", ⟨7⟩)]]

/-! ## Auxiliary lemmas -/

theorem digitChar_toNat (k : Nat) (h : k < 10) : (Nat.digitChar k).toNat - 48 = k := by
  interval_cases k <;> rfl

theorem toDigitsCore_digits (fuel : Nat) : ∀ (n : Nat) (ds : List Char), 0 < n → n < fuel →
    Nat.toDigitsCore 10 fuel n ds = ((Nat.digits 10 n).reverse.map Nat.digitChar) ++ ds := by
  induction fuel with
  | zero => intro n ds _ h; omega
  | succ fuel ih =>
    intro n ds hn hlt
    rw [Nat.toDigitsCore]
    have hd : Nat.digits 10 n = (n % 10) :: Nat.digits 10 (n / 10) :=
      Nat.digits_def' (by norm_num) hn
    by_cases h0 : n / 10 = 0
    · simp [h0, hd]
    · have hpos : 0 < n / 10 := Nat.pos_of_ne_zero h0
      have hlt2 : n / 10 < fuel := by omega
      simp only [h0, if_false]
      rw [ih (n / 10) _ hpos hlt2, hd]
      simp

theorem toString_eq_digits (n : Nat) (hn : 0 < n) :
    toString n = String.mk ((Nat.digits 10 n).reverse.map Nat.digitChar) := by
  show Nat.repr n = _
  rw [Nat.repr, Nat.toDigits, toDigitsCore_digits (n + 1) n [] hn (by omega)]
  simp [List.asString]

theorem digitChar_inj (a b : Nat) (ha : a < 10) (hb : b < 10)
    (h : Nat.digitChar a = Nat.digitChar b) : a = b := by
  have h1 := digitChar_toNat a ha
  have h2 := digitChar_toNat b hb
  rw [h] at h1; omega

theorem map_digitChar_inj : ∀ (l1 l2 : List Nat), (∀ d ∈ l1, d < 10) → (∀ d ∈ l2, d < 10) →
    l1.map Nat.digitChar = l2.map Nat.digitChar → l1 = l2
  | [], [], _, _, _ => rfl
  | [], _ :: _, _, _, h => by simp at h
  | _ :: _, [], _, _, h => by simp at h
  | a :: l1, b :: l2, h1, h2, h => by
    simp only [List.map_cons, List.cons.injEq] at h
    have hab := digitChar_inj a b (h1 a (by simp)) (h2 b (by simp)) h.1
    have ht := map_digitChar_inj l1 l2 (fun d hd => h1 d (by simp [hd]))
      (fun d hd => h2 d (by simp [hd])) h.2
    rw [hab, ht]

theorem toString_succ_inj (i j : Nat) (h : toString (i + 1) = toString (j + 1)) : i = j := by
  rw [toString_eq_digits _ (Nat.succ_pos i), toString_eq_digits _ (Nat.succ_pos j)] at h
  have h1 : (Nat.digits 10 (i+1)).reverse.map Nat.digitChar
      = (Nat.digits 10 (j+1)).reverse.map Nat.digitChar := by
    injection h
  have h2 := map_digitChar_inj _ _
    (fun d hd => Nat.digits_lt_base (by norm_num) (List.mem_reverse.mp hd))
    (fun d hd => Nat.digits_lt_base (by norm_num) (List.mem_reverse.mp hd)) h1
  have h3 : Nat.digits 10 (i + 1) = Nat.digits 10 (j + 1) := List.reverse_injective h2
  have h4 := Nat.digits_inj_iff.mp h3
  omega

theorem storageQuotaName_idx_inj (c : String) (i j : Nat)
    (h : storageQuotaName c i = storageQuotaName c j) : i = j := by
  unfold storageQuotaName at h
  have h1 : toString (i + 1) = toString (j + 1) := by
    have := congrArg String.data h
    simp only [String.data_append] at this
    exact String.ext (List.append_cancel_left this)
  exact toString_succ_inj i j h1
theorem toInt64_of_range (x : Int) (h1 : -9223372036854775808 ≤ x) (h2 : x < 9223372036854775808) :
    toInt64 x = x := by
  unfold toInt64; omega

theorem toInt64_range (x : Int) :
    -9223372036854775808 ≤ toInt64 x ∧ toInt64 x < 9223372036854775808 := by
  unfold toInt64; omega

theorem toInt64_eq_sub (x : Int) :
    toInt64 x = x - 18446744073709551616 * ((x + 9223372036854775808) / 18446744073709551616) := by
  unfold toInt64; omega

theorem toInt64_congr (x y k : Int) (h : x = y + 18446744073709551616 * k) :
    toInt64 x = toInt64 y := by
  unfold toInt64; omega

theorem toInt64_add_right (a b : Int) : toInt64 (a + toInt64 b) = toInt64 (a + b) := by
  unfold toInt64; omega

theorem toInt64_add_left (a b : Int) : toInt64 (toInt64 a + b) = toInt64 (a + b) := by
  unfold toInt64; omega

theorem toInt64_mul (a b : Int) : toInt64 (toInt64 a * toInt64 b) = toInt64 (a * b) := by
  apply toInt64_congr _ _
    (-(a * ((b + 9223372036854775808) / 18446744073709551616))
      - ((a + 9223372036854775808) / 18446744073709551616) * b
      + 18446744073709551616 * (((a + 9223372036854775808) / 18446744073709551616)
          * ((b + 9223372036854775808) / 18446744073709551616)))
  rw [toInt64_eq_sub a, toInt64_eq_sub b]
  ring

theorem foldl_useable (approx : Quantity → Int) (l : List StorageDeviceSet) : ∀ (acc : Int),
    toInt64 (l.foldl
      (fun useableCapacity ds =>
        match ds.Requests.get? ResourceStorage with
        | some storageQuantity =>
          toInt64 (useableCapacity +
            toInt64 (toInt64 (approx storageQuantity) * toInt64 (countAndReplicaOf ds).2))
        | none => useableCapacity) acc)
    = toInt64 (acc + (l.map (requestedCapacity approx)).sum) := by
  induction l with
  | nil => intro acc; simp
  | cons ds l ih =>
    intro acc
    rw [List.foldl_cons, ih]
    simp only [List.map_cons, List.sum_cons, requestedCapacity, countAndReplicaOf]
    cases hq : ds.Requests.get? ResourceStorage with
    | none => simp
    | some q =>
      simp only []
      rw [toInt64_mul, toInt64_add_right, toInt64_add_left, Int.add_assoc]

theorem foldl_useable_range (approx : Quantity → Int) (l : List StorageDeviceSet) : ∀ (acc : Int),
    toInt64 acc = acc →
    toInt64 (l.foldl
      (fun useableCapacity ds =>
        match ds.Requests.get? ResourceStorage with
        | some storageQuantity =>
          toInt64 (useableCapacity +
            toInt64 (toInt64 (approx storageQuantity) * toInt64 (countAndReplicaOf ds).2))
        | none => useableCapacity) acc)
    = l.foldl
      (fun useableCapacity ds =>
        match ds.Requests.get? ResourceStorage with
        | some storageQuantity =>
          toInt64 (useableCapacity +
            toInt64 (toInt64 (approx storageQuantity) * toInt64 (countAndReplicaOf ds).2))
        | none => useableCapacity) acc := by
  induction l with
  | nil => intro acc h; simpa using h
  | cons ds l ih =>
    intro acc h
    rw [List.foldl_cons]
    apply ih
    cases hq : ds.Requests.get? ResourceStorage with
    | none => simpa using h
    | some q => simp only []; exact toInt64_of_range _ (toInt64_range _).1 (toInt64_range _).2

theorem calcUseableCapacity_eq (approx : Quantity → Int) (sc : StorageCluster) :
    calcUseableCapacity approx sc
      = toInt64 ((sc.Spec.StorageDeviceSets.map (requestedCapacity approx)).sum) := by
  unfold calcUseableCapacity
  rw [← foldl_useable_range approx _ 0 (by decide), foldl_useable]
  simp

theorem lookup_eq (c : QuotaClient) (name : String) : c.lookup name = findQuota c.objects name := rfl

theorem find_nil (name : String) : findQuota [] name = none := rfl

theorem find_cons_eq (o : ClusterResourceQuota) (objs : List ClusterResourceQuota)
    (name : String) (h : o.Name = name) : findQuota (o :: objs) name = some o := by
  unfold findQuota
  exact List.find?_cons_of_pos _ (by simp [h])

theorem find_cons_ne (o : ClusterResourceQuota) (objs : List ClusterResourceQuota)
    (name : String) (h : o.Name ≠ name) : findQuota (o :: objs) name = findQuota objs name := by
  unfold findQuota
  exact List.find?_cons_of_neg _ (by simp [h])

theorem find_append_single (objs : List ClusterResourceQuota) (obj : ClusterResourceQuota)
    (name : String) :
    findQuota (objs ++ [obj]) name
      = match findQuota objs name with
        | some o => some o
        | none => if obj.Name = name then some obj else none := by
  induction objs with
  | nil =>
    by_cases hn : obj.Name = name
    · simp [find_nil, find_cons_eq _ _ _ hn, hn]
    · simp [find_nil, find_cons_ne _ _ _ hn, hn]
  | cons o objs ih =>
    by_cases ho : o.Name = name
    · rw [List.cons_append, find_cons_eq _ _ _ ho, find_cons_eq _ _ _ ho]
    · rw [List.cons_append, find_cons_ne _ _ _ ho, find_cons_ne _ _ _ ho, ih]

theorem find_replace_other (objs : List ClusterResourceQuota) (obj : ClusterResourceQuota)
    (name : String) (h : obj.Name ≠ name) :
    findQuota (objs.map (fun o => if o.Name == obj.Name then obj else o)) name = findQuota objs name := by
  induction objs with
  | nil => rfl
  | cons o objs ih =>
    rw [List.map_cons]
    by_cases ho : o.Name = obj.Name
    · have h1 : o.Name ≠ name := by rw [ho]; exact h
      simp only [ho, beq_self_eq_true, if_true]
      rw [find_cons_ne _ _ _ h, find_cons_ne _ _ _ h1, ih]
    · have hb : (o.Name == obj.Name) = false := by simp [ho]
      simp only [hb]
      by_cases hn : o.Name = name
      · simp [find_cons_eq _ _ _ hn]
      · simp only [Bool.false_eq_true, if_false]
        rw [find_cons_ne _ _ _ hn, find_cons_ne _ _ _ hn, ih]

theorem find_replace_same (objs : List ClusterResourceQuota) (obj : ClusterResourceQuota) :
    findQuota (objs.map (fun o => if o.Name == obj.Name then obj else o)) obj.Name
      = (findQuota objs obj.Name).map (fun _ => obj) := by
  induction objs with
  | nil => rfl
  | cons o objs ih =>
    rw [List.map_cons]
    by_cases ho : o.Name = obj.Name
    · simp only [ho, beq_self_eq_true, if_true]
      rw [find_cons_eq _ _ _ rfl, find_cons_eq _ _ _ ho]
      rfl
    · have hb : (o.Name == obj.Name) = false := by simp [ho]
      simp only [hb, Bool.false_eq_true, if_false]
      rw [find_cons_ne _ _ _ ho, find_cons_ne _ _ _ ho, ih]

theorem find_some_name (objs : List ClusterResourceQuota) (name : String)
    (o : ClusterResourceQuota) (h : findQuota objs name = some o) : o.Name = name := by
  unfold findQuota at h
  have := List.find?_some h
  simpa using this
@[simp] theorem served_objects (c : QuotaClient) (call : Call) (err : Option StatusError)
    (objs : List ClusterResourceQuota) : (c.served call err objs).objects = objs := rfl

@[simp] theorem served_calls (c : QuotaClient) (call : Call) (err : Option StatusError)
    (objs : List ClusterResourceQuota) :
    (c.served call err objs).calls = c.calls ++ [⟨call, err⟩] := rfl

@[simp] theorem served_faults (c : QuotaClient) (call : Call) (err : Option StatusError)
    (objs : List ClusterResourceQuota) : (c.served call err objs).faults = c.faults.tail := rfl

@[simp] theorem served_lookup (c : QuotaClient) (call : Call) (err : Option StatusError)
    (objs : List ClusterResourceQuota) (name : String) :
    (c.served call err objs).lookup name = findQuota objs name := rfl

theorem nextFault_other (c : QuotaClient) (e : StatusError) (h : c.nextFault = some e) :
    ∃ code, e = .Other code ∧ c.faults.head? = some (some code) := by
  unfold QuotaClient.nextFault at h
  split at h
  · rename_i code rest hf
    refine ⟨code, ?_, by simp [hf]⟩
    injection h with h; exact h.symm
  · cases h

theorem ensureCreatedStep_cases (c : String) (u : Int) (idx : Nat) (op : OverprovisionSpec)
    (r : QuotaClient) :
    let n := storageQuotaName c idx
    let sq := storageQuota c u idx op
    (∃ e, r.nextFault = some e ∧
        ensureCreatedStep c u idx op r = (some e, r.served (.Get n) (some e) r.objects)) ∨
    (∃ e, r.nextFault = none ∧ r.lookup n = none ∧
        (r.served (.Get n) (some .NotFound) r.objects).nextFault = some e ∧
        ensureCreatedStep c u idx op r
          = (some e, (r.served (.Get n) (some .NotFound) r.objects).served
              (.Create sq) (some e) r.objects)) ∨
    (r.nextFault = none ∧ r.lookup n = none ∧
        (r.served (.Get n) (some .NotFound) r.objects).nextFault = none ∧
        ensureCreatedStep c u idx op r
          = (none, (r.served (.Get n) (some .NotFound) r.objects).served
              (.Create sq) none (r.objects ++ [sq]))) ∨
    (∃ cur, r.nextFault = none ∧ r.lookup n = some cur ∧ sq.Spec = cur.Spec ∧
        ensureCreatedStep c u idx op r = (none, r.served (.Get n) none r.objects)) ∨
    (∃ cur e, r.nextFault = none ∧ r.lookup n = some cur ∧ sq.Spec ≠ cur.Spec ∧
        (r.served (.Get n) none r.objects).nextFault = some e ∧
        ensureCreatedStep c u idx op r
          = (some e, (r.served (.Get n) none r.objects).served
              (.Update { cur with Spec := sq.Spec }) (some e) r.objects)) ∨
    (∃ cur, r.nextFault = none ∧ r.lookup n = some cur ∧ sq.Spec ≠ cur.Spec ∧
        (r.served (.Get n) none r.objects).nextFault = none ∧
        ensureCreatedStep c u idx op r
          = (none, (r.served (.Get n) none r.objects).served
              (.Update { cur with Spec := sq.Spec }) none
              (r.objects.map (fun o => if o.Name == cur.Name then { cur with Spec := sq.Spec } else o)))) := by
  intro n sq
  have hsqn : sq.Name = n := rfl
  cases hf : r.nextFault with
  | some e =>
    left
    refine ⟨e, rfl, ?_⟩
    obtain ⟨code, he, _⟩ := nextFault_other r e hf
    subst he
    simp [ensureCreatedStep, QuotaClient.Get, hf, hsqn, IsNotFound, n]
  | none =>
    right
    cases hl : r.lookup n with
    | none =>
      have hl1 : (r.served (.Get n) (some .NotFound) r.objects).lookup n = none := hl
      cases hf1 : (r.served (.Get n) (some .NotFound) r.objects).nextFault with
      | some e =>
        left
        refine ⟨e, rfl, rfl, rfl, ?_⟩
        simp [ensureCreatedStep, QuotaClient.Get, hf, hsqn, hl, IsNotFound,
          QuotaClient.Create, hf1, n, sq]
      | none =>
        right; left
        refine ⟨rfl, rfl, rfl, ?_⟩
        simp [ensureCreatedStep, QuotaClient.Get, hf, hsqn, hl, IsNotFound,
          QuotaClient.Create, hf1, hl1, n, sq]
    | some cur =>
      right; right
      have hl1 : (r.served (.Get n) none r.objects).lookup n = some cur := hl
      have hcn : cur.Name = n := find_some_name _ _ _ hl
      by_cases hs : sq.Spec = cur.Spec
      · left
        refine ⟨cur, rfl, rfl, hs, ?_⟩
        simp only [ensureCreatedStep, QuotaClient.Get, hf, hsqn, hl, n, sq]
        have hd : decide ((storageQuota c u idx op).Spec = cur.Spec) = true := by
          simpa using hs
        simp [hd]
      · right
        cases hf1 : (r.served (.Get n) none r.objects).nextFault with
        | some e =>
          left
          refine ⟨cur, e, rfl, rfl, hs, rfl, ?_⟩
          simp [ensureCreatedStep, QuotaClient.Get, hf, hsqn, hl, hs, QuotaClient.Update, hf1, n, sq]
        | none =>
          right
          refine ⟨cur, rfl, rfl, hs, rfl, ?_⟩
          have hl2 : findQuota r.objects (storageQuotaName c idx) = some cur := hl
          have hcn2 : cur.Name = storageQuotaName c idx := hcn
          have hnm : ClusterResourceQuota.Name
              { TypeMeta := cur.TypeMeta, ObjectMeta := cur.ObjectMeta,
                Spec := (storageQuota c u idx op).Spec, Status := cur.Status }
              = storageQuotaName c idx := hcn
          simp [ensureCreatedStep, QuotaClient.Get, hf, hsqn, hl, hs, QuotaClient.Update, hf1, n,
            sq, hl2, hnm, hcn2]

theorem ensureCreatedLoop_nil (c : String) (u : Int) (idx : Nat) (r : QuotaClient) :
    ensureCreatedLoop c u idx [] r = (none, r) := rfl

theorem ensureCreatedLoop_cons_none (c : String) (u : Int) (idx : Nat) (op : OverprovisionSpec)
    (ops : List OverprovisionSpec) (r r1 : QuotaClient)
    (h : ensureCreatedStep c u idx op r = (none, r1)) :
    ensureCreatedLoop c u idx (op :: ops) r = ensureCreatedLoop c u (idx + 1) ops r1 := by
  rw [ensureCreatedLoop, h]

theorem ensureCreatedLoop_cons_some (c : String) (u : Int) (idx : Nat) (op : OverprovisionSpec)
    (ops : List OverprovisionSpec) (r r1 : QuotaClient) (err : StatusError)
    (h : ensureCreatedStep c u idx op r = (some err, r1)) :
    ensureCreatedLoop c u idx (op :: ops) r = (some err, r1) := by
  rw [ensureCreatedLoop, h]

theorem aborts_other_get (n : String) (e : StatusError) (r : QuotaClient)
    (h : r.nextFault = some e) : CallRecord.aborts ⟨.Get n, some e⟩ = true := by
  obtain ⟨code, he, _⟩ := nextFault_other r e h
  subst he; rfl

/-- What one round does: the requests it adds all address the round's name, other
names are untouched, success leaves the name converged, failure ends on the failed
request and leaves the objects as they were. -/
theorem ensureCreatedStep_summary (c : String) (u : Int) (idx : Nat) (op : OverprovisionSpec)
    (r : QuotaClient) :
    ∃ trace,
      (ensureCreatedStep c u idx op r).2.calls = r.calls ++ trace ∧
      (∀ rec ∈ trace, rec.call.target = storageQuotaName c idx) ∧
      (∀ name, name ≠ storageQuotaName c idx →
        (ensureCreatedStep c u idx op r).2.lookup name = r.lookup name) ∧
      ((ensureCreatedStep c u idx op r).1 = none →
        (∀ rec ∈ trace, rec.aborts = false) ∧
        ∃ obj, (ensureCreatedStep c u idx op r).2.lookup (storageQuotaName c idx) = some obj ∧
          obj.Spec = (storageQuota c u idx op).Spec) ∧
      (∀ err, (ensureCreatedStep c u idx op r).1 = some err →
        (ensureCreatedStep c u idx op r).2.objects = r.objects ∧
        ∃ pre last, trace = pre ++ [last] ∧ (∀ rec ∈ pre, rec.aborts = false) ∧
          last.aborts = true ∧ last.err = some err) := by
  have hn : (storageQuota c u idx op).Name = storageQuotaName c idx := rfl
  rcases ensureCreatedStep_cases c u idx op r with
    ⟨e, hf, h⟩ | ⟨e, hf, hl, hf1, h⟩ | ⟨hf, hl, hf1, h⟩ | ⟨cur, hf, hl, hs, h⟩ |
    ⟨cur, e, hf, hl, hs, hf1, h⟩ | ⟨cur, hf, hl, hs, hf1, h⟩
  · refine ⟨[⟨.Get (storageQuotaName c idx), some e⟩], ?_, ?_, ?_, ?_, ?_⟩
    · rw [h]; rfl
    · intro rec hrec; simp at hrec; subst hrec; rfl
    · intro name _; rw [h]; rfl
    · intro h1; rw [h] at h1; cases h1
    · intro err h1; rw [h] at h1 ⊢
      injection h1 with h1; subst h1
      exact ⟨rfl, [], _, rfl, by simp, aborts_other_get _ _ r hf, rfl⟩
  · refine ⟨[⟨.Get (storageQuotaName c idx), some .NotFound⟩,
      ⟨.Create (storageQuota c u idx op), some e⟩], ?_, ?_, ?_, ?_, ?_⟩
    · rw [h]; simp
    · intro rec hrec; simp at hrec; rcases hrec with hrec | hrec <;> subst hrec <;> rfl
    · intro name _; rw [h]; rfl
    · intro h1; rw [h] at h1; cases h1
    · intro err h1; rw [h] at h1 ⊢
      injection h1 with h1; subst h1
      refine ⟨rfl, [⟨.Get (storageQuotaName c idx), some .NotFound⟩], _, rfl, ?_, rfl, rfl⟩
      intro rec hrec; simp at hrec; subst hrec; rfl
  · refine ⟨[⟨.Get (storageQuotaName c idx), some .NotFound⟩,
      ⟨.Create (storageQuota c u idx op), none⟩], ?_, ?_, ?_, ?_, ?_⟩
    · rw [h]; simp
    · intro rec hrec; simp at hrec; rcases hrec with hrec | hrec <;> subst hrec <;> rfl
    · intro name hne; rw [h]
      simp only [served_lookup, find_append_single]
      have hl' : findQuota r.objects name = r.lookup name := rfl
      rw [hl']
      cases hq : r.lookup name with
      | some o => rfl
      | none => simp [hn, Ne.symm hne]
    · intro _
      refine ⟨?_, storageQuota c u idx op, ?_, rfl⟩
      · intro rec hrec; simp at hrec; rcases hrec with hrec | hrec <;> subst hrec <;> rfl
      · rw [h]
        simp only [served_lookup, find_append_single]
        have hl' : findQuota r.objects (storageQuotaName c idx) = none := hl
        rw [hl']; simp [hn]
    · intro err h1; rw [h] at h1; cases h1
  · refine ⟨[⟨.Get (storageQuotaName c idx), none⟩], ?_, ?_, ?_, ?_, ?_⟩
    · rw [h]; rfl
    · intro rec hrec; simp at hrec; subst hrec; rfl
    · intro name _; rw [h]; rfl
    · intro _
      refine ⟨?_, cur, ?_, hs.symm⟩
      · intro rec hrec; simp at hrec; subst hrec; rfl
      · rw [h]; exact hl
    · intro err h1; rw [h] at h1; cases h1
  · refine ⟨[⟨.Get (storageQuotaName c idx), none⟩,
      ⟨.Update { cur with Spec := (storageQuota c u idx op).Spec }, some e⟩], ?_, ?_, ?_, ?_, ?_⟩
    · rw [h]; simp
    · intro rec hrec; simp at hrec
      rcases hrec with hrec | hrec <;> subst hrec
      · rfl
      · exact find_some_name r.objects _ cur hl
    · intro name _; rw [h]; rfl
    · intro h1; rw [h] at h1; cases h1
    · intro err h1; rw [h] at h1 ⊢
      injection h1 with h1; subst h1
      refine ⟨rfl, [⟨.Get (storageQuotaName c idx), none⟩], _, rfl, ?_, rfl, rfl⟩
      intro rec hrec; simp at hrec; subst hrec; rfl
  · have hcn : cur.Name = storageQuotaName c idx := find_some_name _ _ _ hl
    have hnm : ClusterResourceQuota.Name { cur with Spec := (storageQuota c u idx op).Spec }
        = cur.Name := rfl
    refine ⟨[⟨.Get (storageQuotaName c idx), none⟩,
      ⟨.Update { cur with Spec := (storageQuota c u idx op).Spec }, none⟩], ?_, ?_, ?_, ?_, ?_⟩
    · rw [h]; simp
    · intro rec hrec; simp at hrec
      rcases hrec with hrec | hrec <;> subst hrec
      · rfl
      · exact hcn
    · intro name hne; rw [h]
      simp only [served_lookup]
      rw [← hnm]
      exact find_replace_other _ _ _ (by rw [hnm, hcn]; exact Ne.symm hne)
    · intro _
      refine ⟨?_, { cur with Spec := (storageQuota c u idx op).Spec }, ?_, rfl⟩
      · intro rec hrec; simp at hrec; rcases hrec with hrec | hrec <;> subst hrec <;> rfl
      · rw [h]
        simp only [served_lookup]
        have h2 := find_replace_same r.objects { cur with Spec := (storageQuota c u idx op).Spec }
        rw [hnm] at h2
        rw [← hcn, h2]
        have hl' : findQuota r.objects cur.Name = some cur := by rw [hcn]; exact hl
        rw [hl']; rfl
    · intro err h1; rw [h] at h1; cases h1

/-- The pass leaves every name outside its index range untouched. -/
theorem ensureCreatedLoop_frame (c : String) (u : Int) (ops : List OverprovisionSpec) :
    ∀ (idx : Nat) (r : QuotaClient) (name : String),
      (∀ j, j < ops.length → name ≠ storageQuotaName c (idx + j)) →
      (ensureCreatedLoop c u idx ops r).2.lookup name = r.lookup name := by
  induction ops with
  | nil => intro idx r name _; rfl
  | cons op ops ih =>
    intro idx r name hne
    obtain ⟨trace, _, _, hframe, _, _⟩ := ensureCreatedStep_summary c u idx op r
    have h0 : name ≠ storageQuotaName c idx := by
      have := hne 0 (by simp)
      simpa using this
    cases hstep : ensureCreatedStep c u idx op r with
    | mk e r1 =>
      rw [hstep] at hframe
      cases e with
      | some err =>
        rw [ensureCreatedLoop_cons_some c u idx op ops r r1 err hstep]
        exact hframe name h0
      | none =>
        rw [ensureCreatedLoop_cons_none c u idx op ops r r1 hstep, ih (idx + 1) r1 name]
        · exact hframe name h0
        · intro j hj
          have := hne (j + 1) (by simp; omega)
          rwa [show idx + (j + 1) = idx + 1 + j by omega] at this

/-- A successful pass leaves every policy converged. -/
theorem ensureCreatedLoop_converged (c : String) (u : Int) (ops : List OverprovisionSpec) :
    ∀ (idx : Nat) (r : QuotaClient), (ensureCreatedLoop c u idx ops r).1 = none →
      ∀ (i : Nat) (op : OverprovisionSpec), ops[i]? = some op →
        ∃ obj, (ensureCreatedLoop c u idx ops r).2.lookup (storageQuotaName c (idx + i)) = some obj ∧
          obj.Spec = (storageQuota c u (idx + i) op).Spec := by
  induction ops with
  | nil => intro idx r _ i op h; simp at h
  | cons op0 ops ih =>
    intro idx r hres i op hi
    obtain ⟨trace, _, _, _, hok, _⟩ := ensureCreatedStep_summary c u idx op0 r
    cases hstep : ensureCreatedStep c u idx op0 r with
    | mk e r1 =>
      rw [hstep] at hok
      cases e with
      | some err =>
        rw [ensureCreatedLoop_cons_some c u idx op0 ops r r1 err hstep] at hres
        cases hres
      | none =>
        rw [ensureCreatedLoop_cons_none c u idx op0 ops r r1 hstep] at hres ⊢
        cases i with
        | zero =>
          simp only [List.getElem?_cons_zero, Option.some.injEq] at hi
          subst hi
          obtain ⟨_, obj, hobj, hspec⟩ := hok rfl
          refine ⟨obj, ?_, hspec⟩
          rw [Nat.add_zero, ensureCreatedLoop_frame c u ops (idx + 1) r1]
          · exact hobj
          · intro j _ heq
            have := storageQuotaName_idx_inj c _ _ heq
            omega
        | succ i =>
          simp only [List.getElem?_cons_succ] at hi
          have := ih (idx + 1) r1 hres i op hi
          rwa [show idx + 1 + i = idx + (i + 1) by omega] at this

/-- The requests of a pass: a successful pass has no aborting request, a failed pass
ends on its first aborting request, issued for some index `k`, with the policies
before `k` converged and the names outside the indices up to `k` untouched. -/
theorem ensureCreatedLoop_trace (c : String) (u : Int) (ops : List OverprovisionSpec) :
    ∀ (idx : Nat) (r : QuotaClient), ∃ trace,
      (ensureCreatedLoop c u idx ops r).2.calls = r.calls ++ trace ∧
      ((ensureCreatedLoop c u idx ops r).1 = none → ∀ rec ∈ trace, rec.aborts = false) ∧
      (∀ err, (ensureCreatedLoop c u idx ops r).1 = some err →
        ∃ pre last k, trace = pre ++ [last] ∧ k < ops.length ∧
          (∀ rec ∈ pre, rec.aborts = false ∧
            ∃ i, i ≤ k ∧ rec.call.target = storageQuotaName c (idx + i)) ∧
          last.aborts = true ∧ last.err = some err ∧
          last.call.target = storageQuotaName c (idx + k) ∧
          (∀ (i : Nat) (op : OverprovisionSpec), i < k → ops[i]? = some op →
            ∃ obj, (ensureCreatedLoop c u idx ops r).2.lookup (storageQuotaName c (idx + i))
                = some obj ∧ obj.Spec = (storageQuota c u (idx + i) op).Spec) ∧
          (∀ name, (∀ i, i ≤ k → name ≠ storageQuotaName c (idx + i)) →
            (ensureCreatedLoop c u idx ops r).2.lookup name = r.lookup name)) := by
  induction ops with
  | nil =>
    intro idx r
    exact ⟨[], by simp [ensureCreatedLoop_nil], by simp, by intro err h; cases h⟩
  | cons op0 ops ih =>
    intro idx r
    obtain ⟨t0, hcalls, htarget, hframe, hok, hfail⟩ := ensureCreatedStep_summary c u idx op0 r
    cases hstep : ensureCreatedStep c u idx op0 r with
    | mk e r1 =>
      rw [hstep] at hcalls hframe hok hfail
      cases e with
      | some err =>
        rw [ensureCreatedLoop_cons_some c u idx op0 ops r r1 err hstep]
        refine ⟨t0, hcalls, (by intro h; cases h), ?_⟩
        intro err' herr
        injection herr with herr; subst herr
        obtain ⟨_, pre, last, ht, hpre, hlast, hlerr⟩ := hfail err rfl
        refine ⟨pre, last, 0, ht, by simp, ?_, hlast, hlerr, ?_, ?_, ?_⟩
        · intro rec hrec
          exact ⟨hpre rec hrec, 0, Nat.le_refl 0, htarget rec (by rw [ht]; simp [hrec])⟩
        · exact htarget last (by rw [ht]; simp)
        · intro i op hi; omega
        · intro name hne
          exact hframe name (by simpa using hne 0 (Nat.le_refl 0))
      | none =>
        rw [ensureCreatedLoop_cons_none c u idx op0 ops r r1 hstep]
        obtain ⟨hnoab, obj0, hobj0, hspec0⟩ := hok rfl
        obtain ⟨t1, hcalls1, hok1, hfail1⟩ := ih (idx + 1) r1
        refine ⟨t0 ++ t1, ?_, ?_, ?_⟩
        · rw [hcalls1]
          show r1.calls ++ t1 = r.calls ++ (t0 ++ t1)
          have hc : r1.calls = r.calls ++ t0 := hcalls
          rw [hc, List.append_assoc]
        · intro hnone rec hrec
          rcases List.mem_append.mp hrec with h | h
          · exact hnoab rec h
          · exact hok1 hnone rec h
        · intro err herr
          obtain ⟨pre, last, k, ht, hk, hpre, hlast, hlerr, hltarget, hconv, hfr⟩ :=
            hfail1 err herr
          refine ⟨t0 ++ pre, last, k + 1, by rw [ht, List.append_assoc], by simp; omega,
            ?_, hlast, hlerr, ?_, ?_, ?_⟩
          · intro rec hrec
            rcases List.mem_append.mp hrec with h | h
            · exact ⟨hnoab rec h, 0, Nat.zero_le _, htarget rec h⟩
            · obtain ⟨hna, i, hi, hti⟩ := hpre rec h
              exact ⟨hna, i + 1, by omega, by rw [hti]; congr 1; omega⟩
          · rw [hltarget]; congr 1; omega
          · intro i op hi hget
            cases i with
            | zero =>
              simp only [List.getElem?_cons_zero, Option.some.injEq] at hget
              subst hget
              refine ⟨obj0, ?_, hspec0⟩
              rw [Nat.add_zero, ensureCreatedLoop_frame c u ops (idx + 1) r1]
              · exact hobj0
              · intro j _ heq
                have := storageQuotaName_idx_inj c _ _ heq
                omega
            | succ i =>
              simp only [List.getElem?_cons_succ] at hget
              have := hconv i op (by omega) hget
              rwa [show idx + 1 + i = idx + (i + 1) by omega] at this
          · intro name hne
            rw [hfr name]
            · exact hframe name (by simpa using hne 0 (Nat.zero_le _))
            · intro i hi
              have := hne (i + 1) (by omega)
              rwa [show idx + (i + 1) = idx + 1 + i by omega] at this

/-- Two decompositions of a list around its first aborting element agree. -/
theorem first_abort_unique : ∀ (pre1 pre2 post : List CallRecord) (last rec : CallRecord),
    pre1 ++ [last] = pre2 ++ rec :: post →
    (∀ x ∈ pre1, x.aborts = false) → (∀ x ∈ pre2, x.aborts = false) →
    last.aborts = true → rec.aborts = true →
    pre1 = pre2 ∧ last = rec ∧ post = []
  | [], [], post, last, rec, h, _, _, _, _ => by
    simp at h; exact ⟨rfl, h.1, h.2⟩
  | [], x :: pre2, post, last, rec, h, _, h2, hl, _ => by
    simp at h
  | x :: pre1, [], post, last, rec, h, h1, _, _, hr => by
    simp at h
    have := h1 x (by simp)
    rw [h.1, hr] at this; cases this
  | x :: pre1, y :: pre2, post, last, rec, h, h1, h2, hl, hr => by
    simp only [List.cons_append, List.cons.injEq] at h
    obtain ⟨hp, hl', hpost⟩ := first_abort_unique pre1 pre2 post last rec h.2
      (fun z hz => h1 z (by simp [hz])) (fun z hz => h2 z (by simp [hz])) hl hr
    exact ⟨by rw [h.1, hp], hl', hpost⟩

theorem nextFault_none (r : QuotaClient) (h : ∀ f ∈ r.faults, f = none) : r.nextFault = none := by
  unfold QuotaClient.nextFault
  split
  · rename_i code rest hf
    have := h (some code) (by rw [hf]; simp)
    cases this
  · rfl

theorem served_faults_none (r : QuotaClient) (call : Call) (err : Option StatusError)
    (objs : List ClusterResourceQuota) (h : ∀ f ∈ r.faults, f = none) :
    ∀ f ∈ (r.served call err objs).faults, f = none := by
  intro f hf
  exact h f (List.mem_of_mem_tail hf)

/-- A round on a fresh name of a store that does not fail creates the desired object. -/
theorem ensureCreatedStep_fresh (c : String) (u : Int) (idx : Nat) (op : OverprovisionSpec)
    (r : QuotaClient) (hfaults : ∀ f ∈ r.faults, f = none)
    (hl : r.lookup (storageQuotaName c idx) = none) :
    (ensureCreatedStep c u idx op r).1 = none ∧
    (ensureCreatedStep c u idx op r).2.objects = r.objects ++ [storageQuota c u idx op] ∧
    (∀ f ∈ (ensureCreatedStep c u idx op r).2.faults, f = none) := by
  have hf0 := nextFault_none r hfaults
  have hf1 := nextFault_none (r.served (.Get (storageQuotaName c idx)) (some .NotFound) r.objects)
    (served_faults_none r _ _ _ hfaults)
  rcases ensureCreatedStep_cases c u idx op r with
    ⟨e, hf, h⟩ | ⟨e, hf, hl', hf1', h⟩ | ⟨hf, hl', hf1', h⟩ | ⟨cur, hf, hl', hs, h⟩ |
    ⟨cur, e, hf, hl', hs, hf1', h⟩ | ⟨cur, hf, hl', hs, hf1', h⟩
  · rw [hf0] at hf; cases hf
  · rw [hf1] at hf1'; cases hf1'
  · rw [h]
    refine ⟨rfl, rfl, ?_⟩
    exact served_faults_none _ _ _ _ (served_faults_none r _ _ _ hfaults)
  · rw [hl] at hl'; cases hl'
  · rw [hl] at hl'; cases hl'
  · rw [hl] at hl'; cases hl'

/-- A pass over fresh names of a store that does not fail appends the desired objects. -/
theorem ensureCreatedLoop_fresh (c : String) (u : Int) (ops : List OverprovisionSpec) :
    ∀ (idx : Nat) (r : QuotaClient), (∀ f ∈ r.faults, f = none) →
      (∀ j, j < ops.length → r.lookup (storageQuotaName c (idx + j)) = none) →
      (ensureCreatedLoop c u idx ops r).1 = none ∧
      (ensureCreatedLoop c u idx ops r).2.objects = r.objects ++ desiredFrom c u idx ops := by
  induction ops with
  | nil => intro idx r _ _; simp [ensureCreatedLoop_nil, desiredFrom]
  | cons op ops ih =>
    intro idx r hfaults hfresh
    obtain ⟨h1, h2, h3⟩ := ensureCreatedStep_fresh c u idx op r hfaults
      (by simpa using hfresh 0 (by simp))
    obtain ⟨_, _, _, hframe, _, _⟩ := ensureCreatedStep_summary c u idx op r
    cases hstep : ensureCreatedStep c u idx op r with
    | mk e r1 =>
      rw [hstep] at h1 h2 h3 hframe
      simp only at h1 h2 h3 hframe
      subst h1
      rw [ensureCreatedLoop_cons_none c u idx op ops r r1 hstep]
      have := ih (idx + 1) r1 h3 (by
        intro j hj
        rw [hframe]
        · have := hfresh (j + 1) (by simp; omega)
          rwa [show idx + (j + 1) = idx + 1 + j by omega] at this
        · intro heq
          have := storageQuotaName_idx_inj c _ _ heq
          omega)
      refine ⟨this.1, ?_⟩
      rw [this.2, h2, desiredFrom, List.append_assoc]
      rfl

theorem desiredFrom_names (c : String) (u : Int) (ops : List OverprovisionSpec) :
    ∀ (idx : Nat), (desiredFrom c u idx ops).map ClusterResourceQuota.Name
      = (List.range' idx ops.length).map (storageQuotaName c) := by
  induction ops with
  | nil => intro idx; rfl
  | cons op ops ih =>
    intro idx
    rw [desiredFrom, List.map_cons, ih (idx + 1), List.length_cons, List.range'_succ,
      List.map_cons]
    rfl

/-- A round on a converged name only reads. -/
theorem ensureCreatedStep_converged (c : String) (u : Int) (idx : Nat) (op : OverprovisionSpec)
    (r : QuotaClient) (obj : ClusterResourceQuota)
    (hl : r.lookup (storageQuotaName c idx) = some obj)
    (hs : obj.Spec = (storageQuota c u idx op).Spec) :
    ∃ e, ensureCreatedStep c u idx op r
        = (e, r.served (.Get (storageQuotaName c idx)) e r.objects) ∧
      ((∀ f ∈ r.faults, f = none) → e = none) := by
  rcases ensureCreatedStep_cases c u idx op r with
    ⟨e, hf, h⟩ | ⟨e, hf, hl', hf1', h⟩ | ⟨hf, hl', hf1', h⟩ | ⟨cur, hf, hl', hs', h⟩ |
    ⟨cur, e, hf, hl', hs', hf1', h⟩ | ⟨cur, hf, hl', hs', hf1', h⟩
  · refine ⟨some e, h, ?_⟩
    intro hfaults
    rw [nextFault_none r hfaults] at hf; cases hf
  · rw [hl] at hl'; cases hl'
  · rw [hl] at hl'; cases hl'
  · exact ⟨none, h, fun _ => rfl⟩
  · rw [hl] at hl'; injection hl' with hl'; subst hl'
    exact absurd hs.symm hs'
  · rw [hl] at hl'; injection hl' with hl'; subst hl'
    exact absurd hs.symm hs'

/-- A pass over a converged store only reads: the objects stay, every request is a
get, and the result is the error of the first failed get, if any. -/
theorem ensureCreatedLoop_idempotent (c : String) (u : Int) (ops : List OverprovisionSpec) :
    ∀ (idx : Nat) (r : QuotaClient),
      (∀ (i : Nat) (op : OverprovisionSpec), ops[i]? = some op →
        ∃ obj, r.lookup (storageQuotaName c (idx + i)) = some obj ∧
          obj.Spec = (storageQuota c u (idx + i) op).Spec) →
      (ensureCreatedLoop c u idx ops r).2.objects = r.objects ∧
      ∃ trace, (ensureCreatedLoop c u idx ops r).2.calls = r.calls ++ trace ∧
        (∀ rec ∈ trace, ∃ name, rec.call = .Get name) ∧
        (ensureCreatedLoop c u idx ops r).1 = trace.findSome? CallRecord.err ∧
        ((∀ f ∈ r.faults, f = none) → (ensureCreatedLoop c u idx ops r).1 = none) := by
  induction ops with
  | nil =>
    intro idx r _
    exact ⟨rfl, [], by simp [ensureCreatedLoop_nil], by simp, rfl, fun _ => rfl⟩
  | cons op ops ih =>
    intro idx r hconv
    obtain ⟨obj, hl, hs⟩ := hconv 0 op (by simp)
    obtain ⟨e, hstep, hnone⟩ := ensureCreatedStep_converged c u idx op r obj hl hs
    cases e with
    | some err =>
      rw [ensureCreatedLoop_cons_some c u idx op ops r _ err hstep]
      refine ⟨rfl, [⟨.Get (storageQuotaName c idx), some err⟩], rfl, ?_, rfl, ?_⟩
      · intro rec hrec; simp at hrec; exact ⟨_, by rw [hrec]⟩
      · intro hfaults; exact absurd (hnone hfaults) (by simp)
    | none =>
      rw [ensureCreatedLoop_cons_none c u idx op ops r _ hstep]
      obtain ⟨hobj, trace, hcalls, hgets, hres, hnf⟩ := ih (idx + 1)
        (r.served (.Get (storageQuotaName c idx)) none r.objects) (by
          intro i op' hi
          have := hconv (i + 1) op' (by simpa using hi)
          rwa [show idx + (i + 1) = idx + 1 + i by omega] at this)
      refine ⟨hobj, ⟨.Get (storageQuotaName c idx), none⟩ :: trace, ?_, ?_, ?_, ?_⟩
      · rw [hcalls]; simp
      · intro rec hrec
        rcases List.mem_cons.mp hrec with h | h
        · exact ⟨_, by rw [h]⟩
        · exact hgets rec h
      · rw [hres]; simp [List.findSome?_cons]
      · intro hfaults
        exact hnf (served_faults_none r _ _ _ hfaults)

/-! ## The claims -/

theorem storageQuotaName_eq (c : String) (i : Nat) :
    storageQuotaName c i = c ++ "-clusterresourcequota-storage" ++ toString (i + 1) := by
  unfold storageQuotaName clusterResourceQuotaStorageKey
  rw [String.append_assoc c "-" "clusterresourcequota-storage"]
  rfl

/-- C1: whenever `ensureCreated` returns no error, for every policy index `i` the store
holds an object named `storageQuotaName(clusterName, i)` whose spec is the desired one:
the selector of policy `i` and the hard-limits map with the single entry
`resourceRequestName(storageClassName) ↦ hardLimit(policy)`. -/
theorem ensureCreated_converges (approx : Quantity → Int) (r : QuotaClient) (sc : StorageCluster)
    (h : (ensureCreated approx r sc).1 = none) (i : Nat)
    (hi : i < sc.Spec.Overprovision.length) :
    ∃ obj, (ensureCreated approx r sc).2.lookup (storageQuotaName sc.Name i) = some obj ∧
      obj.Name = storageQuotaName sc.Name i ∧
      obj.Spec =
        { Selector := sc.Spec.Overprovision[i].Selector
          Quota :=
            { Hard := [(resourceRequestName sc.Spec.Overprovision[i].StorageClassName,
                        hardLimit (calcUseableCapacity approx sc) sc.Spec.Overprovision[i])]
              Scopes := []
              ScopeSelector := none } } := by
  obtain ⟨obj, hobj, hspec⟩ := ensureCreatedLoop_converged sc.Name (calcUseableCapacity approx sc)
    sc.Spec.Overprovision 0 r h i sc.Spec.Overprovision[i] (List.getElem?_eq_getElem hi)
  rw [Nat.zero_add] at hobj hspec
  exact ⟨obj, hobj, find_some_name _ _ _ hobj, hspec⟩

theorem ensureCreated_converges_witness :
    (ensureCreated approxExact staleClient testCluster).1 = none ∧
    ∃ obj, (ensureCreated approxExact staleClient testCluster).2.lookup
        (storageQuotaName "x" 0) = some obj ∧
      obj.Name = storageQuotaName "x" 0 ∧
      obj.Spec =
        { Selector := testSelector "test1"
          Quota :=
            { Hard := [("gold.storageclass.storage.k8s.io/requests.storage", testQuantity2T)]
              Scopes := []
              ScopeSelector := none } } :=
  ⟨by decide, ensureCreated_converges approxExact staleClient testCluster (by decide) 0 (by decide)⟩

/-- C2 as stated fails: after a successful first pass, a second pass whose get is
answered with a server error returns that error. -/
theorem ensureCreated_second_pass_get_error :
    (ensureCreated approxExact { faults := [none, none, none, none, some 500] } testCluster).1
      = none ∧
    (ensureCreated approxExact
      (ensureCreated approxExact { faults := [none, none, none, none, some 500] } testCluster).2
      testCluster).1 = some (.Other 500) := by
  decide

/-- C2, amended: after a successful `ensureCreated`, a second call with the unchanged
specification issues only get requests (no create, no update) and leaves the stored
objects as they were; it returns the error of its first failed get, and no error when
the store injects no failure. -/
theorem ensureCreated_idempotent (approx : Quantity → Int) (r : QuotaClient) (sc : StorageCluster)
    (h : (ensureCreated approx r sc).1 = none) :
    (ensureCreated approx (ensureCreated approx r sc).2 sc).2.objects
      = (ensureCreated approx r sc).2.objects ∧
    ∃ trace,
      (ensureCreated approx (ensureCreated approx r sc).2 sc).2.calls
        = (ensureCreated approx r sc).2.calls ++ trace ∧
      (∀ rec ∈ trace, ∃ name, rec.call = .Get name) ∧
      (ensureCreated approx (ensureCreated approx r sc).2 sc).1
        = trace.findSome? CallRecord.err ∧
      ((∀ f ∈ (ensureCreated approx r sc).2.faults, f = none) →
        (ensureCreated approx (ensureCreated approx r sc).2 sc).1 = none) :=
  ensureCreatedLoop_idempotent sc.Name (calcUseableCapacity approx sc) sc.Spec.Overprovision 0
    (ensureCreated approx r sc).2
    (ensureCreatedLoop_converged sc.Name (calcUseableCapacity approx sc)
      sc.Spec.Overprovision 0 r h)

theorem ensureCreated_idempotent_witness :
    (ensureCreated approxExact staleClient testCluster).1 = none ∧
    (ensureCreated approxExact (ensureCreated approxExact staleClient testCluster).2
        testCluster).2.objects
      = (ensureCreated approxExact staleClient testCluster).2.objects :=
  ⟨by decide, (ensureCreated_idempotent approxExact staleClient testCluster (by decide)).1⟩

/-- C3: on a store that holds no quota object and whose operations do not fail,
`ensureCreated` on a specification with N policies succeeds and leaves exactly N
objects, named `<cluster>-clusterresourcequota-storage1` up to
`<cluster>-clusterresourcequota-storageN`. -/
theorem ensureCreated_count (approx : Quantity → Int) (r : QuotaClient) (sc : StorageCluster)
    (hempty : r.objects = []) (hfaults : ∀ f ∈ r.faults, f = none) :
    (ensureCreated approx r sc).1 = none ∧
    (ensureCreated approx r sc).2.objects.length = sc.Spec.Overprovision.length ∧
    (ensureCreated approx r sc).2.objects.map ClusterResourceQuota.Name
      = (List.range sc.Spec.Overprovision.length).map
          (fun i => sc.Name ++ "-clusterresourcequota-storage" ++ toString (i + 1)) := by
  obtain ⟨h1, h2⟩ := ensureCreatedLoop_fresh sc.Name (calcUseableCapacity approx sc)
    sc.Spec.Overprovision 0 r hfaults (by
      intro j _
      show findQuota r.objects _ = none
      rw [hempty]; rfl)
  have hnames : (ensureCreated approx r sc).2.objects.map ClusterResourceQuota.Name
      = (List.range sc.Spec.Overprovision.length).map
          (fun i => sc.Name ++ "-clusterresourcequota-storage" ++ toString (i + 1)) := by
    show (ensureCreatedLoop _ _ _ _ _).2.objects.map _ = _
    rw [h2, hempty, List.nil_append, desiredFrom_names, List.range_eq_range']
    apply List.map_congr_left
    intro i _
    exact storageQuotaName_eq sc.Name i
  refine ⟨h1, ?_, hnames⟩
  have := congrArg List.length hnames
  simpa using this

theorem ensureCreated_count_witness :
    (ensureCreated approxExact {} testCluster).1 = none ∧
    (ensureCreated approxExact {} testCluster).2.objects.length = 2 ∧
    (ensureCreated approxExact {} testCluster).2.objects.map ClusterResourceQuota.Name
      = ["x-clusterresourcequota-storage1", "x-clusterresourcequota-storage2"] :=
  ensureCreated_count approxExact {} testCluster rfl (by decide)

/-- C4: for a policy without explicit capacity the hard limit is
`useableCapacity + (percentage * useableCapacity) / 100` in `int64` arithmetic, the
product formed first and the division truncating; whenever the product and the sum fit
into `int64` this is the same formula over the integers.  For the fixture (1Ti, replica
2, percentage 50) the limit is `3 * 2^40`, and that is what `ensureCreated` stores. -/
theorem hardLimit_percentage (u : Int) (op : OverprovisionSpec) (h : op.Capacity = none) :
    hardLimit u op
      = NewQuantity (toInt64 (u + Int.tdiv (toInt64 (toInt64 op.Percentage * u)) 100)) ∧
    (∀ (c : String) (idx : Nat), (storageQuota c u idx op).Spec.Quota.Hard
      = [(resourceRequestName op.StorageClassName,
          NewQuantity (toInt64 (u + Int.tdiv (toInt64 (toInt64 op.Percentage * u)) 100)))]) ∧
    (toInt64 op.Percentage = op.Percentage →
      toInt64 (op.Percentage * u) = op.Percentage * u →
      toInt64 (u + Int.tdiv (op.Percentage * u) 100) = u + Int.tdiv (op.Percentage * u) 100 →
      hardLimit u op = NewQuantity (u + Int.tdiv (op.Percentage * u) 100)) ∧
    hardLimit (calcUseableCapacity approxExact testCluster)
        { StorageClassName := "gold", Percentage := 50, Selector := testSelector "test2" }
      = NewQuantity (3 * 2 ^ 40) ∧
    ((ensureCreated approxExact {} testCluster).2.lookup (storageQuotaName "x" 1)).map
        (fun o => o.Spec.Quota.Hard)
      = some [("gold.storageclass.storage.k8s.io/requests.storage", NewQuantity (3 * 2 ^ 40))] := by
  refine ⟨?_, ?_, ?_, by decide, by decide⟩
  · unfold hardLimit; rw [h]
  · intro c idx
    unfold storageQuota hardLimit; rw [h]
  · intro h1 h2 h3
    unfold hardLimit; rw [h, h1, h2, h3]

theorem hardLimit_percentage_witness :
    hardLimit 3 { Percentage := 50, Selector := testSelector "a" } = NewQuantity 4 ∧
    hardLimit (-3) { Percentage := 50, Selector := testSelector "a" } = NewQuantity (-4) :=
  ⟨(hardLimit_percentage 3 { Percentage := 50, Selector := testSelector "a" } rfl).2.2.1
      (by decide) (by decide) (by decide),
   (hardLimit_percentage (-3) { Percentage := 50, Selector := testSelector "a" } rfl).2.2.1
      (by decide) (by decide) (by decide)⟩

/-- C5: a policy with an explicit capacity gets that capacity verbatim as hard limit of
the desired quota object, whatever the percentage and the useable capacity are. -/
theorem hardLimit_explicit (op : OverprovisionSpec) (capacity : Quantity)
    (h : op.Capacity = some capacity) (c : String) (u : Int) (idx : Nat) :
    hardLimit u op = capacity ∧
    (storageQuota c u idx op).Spec.Quota.Hard
      = [(resourceRequestName op.StorageClassName, capacity)] ∧
    ∀ (percentage useableCapacity : Int),
      hardLimit useableCapacity { op with Percentage := percentage } = capacity := by
  refine ⟨?_, ?_, ?_⟩
  · unfold hardLimit; rw [h]
  · unfold storageQuota hardLimit; rw [h]
  · intro p v
    unfold hardLimit
    simp only [h]

theorem hardLimit_explicit_witness :
    hardLimit (2 * 2 ^ 40)
      { StorageClassName := "gold", Capacity := some testQuantity2T, Percentage := 50,
        Selector := testSelector "test1" } = testQuantity2T :=
  (hardLimit_explicit
    { StorageClassName := "gold", Capacity := some testQuantity2T, Percentage := 50,
      Selector := testSelector "test1" } testQuantity2T rfl "x" (2 * 2 ^ 40) 0).1

/-- C6: `calcUseableCapacity` is the `int64` sum, over the device sets with a storage
request, of the request truncated to an integer times the replica count, device sets
without a request adding nothing; when that sum fits into `int64` it is the sum itself.
Without device sets, or with request-less device sets only, it is 0; a 1Ti request with
replica 2 plus a request-less device set gives `2 * 2^40`. -/
theorem calcUseableCapacity_sum (approx : Quantity → Int) (sc : StorageCluster) :
    calcUseableCapacity approx sc
      = toInt64 ((sc.Spec.StorageDeviceSets.map (requestedCapacity approx)).sum) ∧
    (toInt64 ((sc.Spec.StorageDeviceSets.map (requestedCapacity approx)).sum)
        = (sc.Spec.StorageDeviceSets.map (requestedCapacity approx)).sum →
      calcUseableCapacity approx sc
        = (sc.Spec.StorageDeviceSets.map (requestedCapacity approx)).sum) ∧
    ((∀ ds ∈ sc.Spec.StorageDeviceSets, ds.Requests.get? ResourceStorage = none) →
      calcUseableCapacity approx sc = 0) ∧
    (∀ ds, ds.Requests.get? ResourceStorage = none → requestedCapacity approx ds = 0) ∧
    (∀ ds q, ds.Requests.get? ResourceStorage = some q →
      requestedCapacity approx ds = approx q * ds.Replica) ∧
    calcUseableCapacity approx { sc with Spec := { sc.Spec with StorageDeviceSets := [] } } = 0 ∧
    calcUseableCapacity approxExact testClusterTwoSets = 2 * 2 ^ 40 := by
  have hreq0 : ∀ ds : StorageDeviceSet, ds.Requests.get? ResourceStorage = none →
      requestedCapacity approx ds = 0 := by
    intro ds h; unfold requestedCapacity; rw [h]
  refine ⟨calcUseableCapacity_eq approx sc, ?_, ?_, hreq0, ?_, rfl, by decide⟩
  · intro h; rw [calcUseableCapacity_eq, h]
  · intro h
    rw [calcUseableCapacity_eq]
    have hz : (sc.Spec.StorageDeviceSets.map (requestedCapacity approx)).sum = 0 := by
      apply List.sum_eq_zero
      intro x hx
      obtain ⟨ds, hds, rfl⟩ := List.mem_map.mp hx
      exact hreq0 ds (h ds hds)
    rw [hz]; rfl
  · intro ds q h; unfold requestedCapacity; rw [h]

theorem calcUseableCapacity_sum_witness :
    calcUseableCapacity approxExact testClusterTwoSets
      = (testClusterTwoSets.Spec.StorageDeviceSets.map (requestedCapacity approxExact)).sum ∧
    calcUseableCapacity approxExact
      { Name := "x", Spec := { StorageDeviceSets := [{ Name := "bare", Replica := 3 }] } } = 0 :=
  ⟨(calcUseableCapacity_sum approxExact testClusterTwoSets).2.1 (by decide),
   (calcUseableCapacity_sum approxExact
      { Name := "x", Spec := { StorageDeviceSets := [{ Name := "bare", Replica := 3 }] } }).2.2.1
      (by decide)⟩

/-- C7: `storageQuotaName(c, i)` is `c`, then `-clusterresourcequota-storage`, then the
decimal digits of `i + 1`, most significant first; index 0 of cluster `x` gives
`x-clusterresourcequota-storage1`. -/
theorem storageQuotaName_format (c : String) (i : Nat) :
    storageQuotaName c i = c ++ "-clusterresourcequota-storage" ++ toString (i + 1) ∧
    toString (i + 1) = String.mk ((Nat.digits 10 (i + 1)).reverse.map Nat.digitChar) ∧
    storageQuotaName "x" 0 = "x-clusterresourcequota-storage1" :=
  ⟨storageQuotaName_eq c i, toString_eq_digits (i + 1) (Nat.succ_pos i), by decide⟩

/-- C8: `resourceRequestName(s)` is `requests.storage` for the empty storage class name
and `s ++ ".storageclass.storage.k8s.io/" ++ "requests.storage"` otherwise, and the
hard-limits map of the desired quota object has exactly one entry, keyed by that name. -/
theorem resourceRequestName_rule (s c : String) (u : Int) (idx : Nat) (op : OverprovisionSpec) :
    resourceRequestName s
      = (if s = "" then "requests.storage"
         else s ++ ".storageclass.storage.k8s.io/" ++ "requests.storage") ∧
    (storageQuota c u idx op).Spec.Quota.Hard.length = 1 ∧
    (storageQuota c u idx op).Spec.Quota.Hard.map Prod.fst
      = [resourceRequestName op.StorageClassName] := by
  refine ⟨?_, rfl, rfl⟩
  unfold resourceRequestName V1ResourceByStorageClass
  by_cases h : s = "" <;> simp [h, ResourceRequestsStorage, storageClassSuffix]

/-- C9 fails on the code: with the first quota object present and the get answered with
a server error, `ensureDeleted` issues no delete, keeps the object and returns no error. -/
theorem ensureDeleted_swallows_get_error :
    (ensureDeleted { staleClient with faults := [some 500] } testCluster).1 = none ∧
    ((ensureDeleted { staleClient with faults := [some 500] } testCluster).2.lookup
        "x-clusterresourcequota-storage1").isSome = true ∧
    (ensureDeleted { staleClient with faults := [some 500] } testCluster).2.calls
      = [⟨.Get "x-clusterresourcequota-storage1", some (.Other 500)⟩,
         ⟨.Get "x-clusterresourcequota-storage2", some .NotFound⟩] := by
  decide

/-- C10: when the first aborting request of `ensureCreated` (a get failing with an error
other than not-found, a failing create or a failing update) is issued, it is issued for
some policy index `k`; `ensureCreated` returns exactly its error, issues no request
after it, every policy before `k` is converged, and every object named for an index
after `k` is as it was before the call. -/
theorem ensureCreated_abort (approx : Quantity → Int) (r : QuotaClient) (sc : StorageCluster)
    (pre post : List CallRecord) (rec : CallRecord)
    (hcalls : (ensureCreated approx r sc).2.calls = r.calls ++ (pre ++ rec :: post))
    (hpre : ∀ x ∈ pre, x.aborts = false) (hrec : rec.aborts = true) :
    (∃ err, rec.err = some err ∧ (ensureCreated approx r sc).1 = some err) ∧
    post = [] ∧
    ∃ k, k < sc.Spec.Overprovision.length ∧
      rec.call.target = storageQuotaName sc.Name k ∧
      (∀ (i : Nat) (hi : i < sc.Spec.Overprovision.length), i < k →
        ∃ obj, (ensureCreated approx r sc).2.lookup (storageQuotaName sc.Name i) = some obj ∧
          obj.Spec =
            { Selector := sc.Spec.Overprovision[i].Selector
              Quota :=
                { Hard := [(resourceRequestName sc.Spec.Overprovision[i].StorageClassName,
                    hardLimit (calcUseableCapacity approx sc) sc.Spec.Overprovision[i])]
                  Scopes := []
                  ScopeSelector := none } }) ∧
      (∀ j, k < j →
        (ensureCreated approx r sc).2.lookup (storageQuotaName sc.Name j)
          = r.lookup (storageQuotaName sc.Name j)) := by
  obtain ⟨trace, htrace, hok, hfail⟩ := ensureCreatedLoop_trace sc.Name
    (calcUseableCapacity approx sc) sc.Spec.Overprovision 0 r
  have ht : trace = pre ++ rec :: post := by
    have h1 : r.calls ++ trace = r.calls ++ (pre ++ rec :: post) := by
      rw [← htrace]; exact hcalls
    exact List.append_cancel_left h1
  cases hres : (ensureCreatedLoop sc.Name (calcUseableCapacity approx sc) 0
      sc.Spec.Overprovision r).1 with
  | none =>
    have := hok hres rec (by rw [ht]; simp)
    rw [hrec] at this; cases this
  | some err =>
    obtain ⟨pre1, last, k, ht1, hk, hpre1, hlast, hlerr, hltarget, hconv, hframe⟩ :=
      hfail err hres
    obtain ⟨hp, hl, hpost⟩ := first_abort_unique pre1 pre post last rec (by rw [← ht1, ht])
      (fun x hx => (hpre1 x hx).1) hpre hlast hrec
    subst hl
    refine ⟨⟨err, hlerr, hres⟩, hpost, k, hk, by simpa using hltarget, ?_, ?_⟩
    · intro i hi hik
      have := hconv i sc.Spec.Overprovision[i] hik (List.getElem?_eq_getElem hi)
      simpa using this
    · intro j hj
      have := hframe (storageQuotaName sc.Name j) (by
        intro i hi heq
        have := storageQuotaName_idx_inj sc.Name _ _ heq
        omega)
      exact this

theorem ensureCreated_abort_witness :
    (∃ err, some (StatusError.Other 7) = some err ∧
      (ensureCreated approxExact { staleClient with faults := [none, none, none, some 7] }
        testCluster).1 = some err) ∧
    ∃ k, k < 2 ∧
      "x-clusterresourcequota-storage2" = storageQuotaName "x" k ∧
      (∀ (i : Nat) (hi : i < 2), i < k →
        ∃ obj, (ensureCreated approxExact
            { staleClient with faults := [none, none, none, some 7] } testCluster).2.lookup
              (storageQuotaName "x" i) = some obj ∧
          obj.Spec =
            { Selector := testCluster.Spec.Overprovision[i].Selector
              Quota :=
                { Hard := [(resourceRequestName testCluster.Spec.Overprovision[i].StorageClassName,
                    hardLimit (calcUseableCapacity approxExact testCluster)
                      testCluster.Spec.Overprovision[i])]
                  Scopes := []
                  ScopeSelector := none } }) ∧
      (∀ j, k < j →
        (ensureCreated approxExact { staleClient with faults := [none, none, none, some 7] }
            testCluster).2.lookup (storageQuotaName "x" j)
          = QuotaClient.lookup { staleClient with faults := [none, none, none, some 7] }
              (storageQuotaName "x" j)) :=
  have h := ensureCreated_abort approxExact
    { staleClient with faults := [none, none, none, some 7] } testCluster
    [⟨.Get "x-clusterresourcequota-storage1", none⟩,
     ⟨.Update { staleQuota with
        Spec := (storageQuota "x" (2 * 2 ^ 40) 0
          { StorageClassName := "gold", Capacity := some testQuantity2T,
            Selector := testSelector "test1" }).Spec }, none⟩,
     ⟨.Get "x-clusterresourcequota-storage2", some .NotFound⟩]
    []
    ⟨.Create (storageQuota "x" (2 * 2 ^ 40) 1
        { StorageClassName := "gold", Percentage := 50, Selector := testSelector "test2" }),
      some (.Other 7)⟩
    (by decide) (by decide) (by decide)
  ⟨h.1, h.2.2⟩

/-! ## Auxiliary lemmas on deletion, the frame of a pass, names and the collector -/

theorem find_filter_other (objs : List ClusterResourceQuota) (n name : String) (h : name ≠ n) :
    findQuota (objs.filter (fun o => !(o.Name == n))) name = findQuota objs name := by
  induction objs with
  | nil => rfl
  | cons o objs ih =>
    by_cases ho : o.Name = n
    · have hf : (!(o.Name == n)) = false := by simp [ho]
      rw [List.filter_cons_of_neg (by simp [ho]), ih,
        find_cons_ne o objs name (by rw [ho]; exact Ne.symm h)]
    · rw [List.filter_cons_of_pos (by simp [ho])]
      by_cases hn : o.Name = name
      · rw [find_cons_eq _ _ _ hn, find_cons_eq _ _ _ hn]
      · rw [find_cons_ne _ _ _ hn, find_cons_ne _ _ _ hn, ih]

theorem find_filter_same (objs : List ClusterResourceQuota) (n : String) :
    findQuota (objs.filter (fun o => !(o.Name == n))) n = none := by
  induction objs with
  | nil => rfl
  | cons o objs ih =>
    by_cases ho : o.Name = n
    · rw [List.filter_cons_of_neg (by simp [ho]), ih]
    · rw [List.filter_cons_of_pos (by simp [ho]), find_cons_ne _ _ _ ho, ih]

theorem filter_of_find_none (objs : List ClusterResourceQuota) (n : String)
    (h : findQuota objs n = none) : objs.filter (fun o => !(o.Name == n)) = objs := by
  induction objs with
  | nil => rfl
  | cons o objs ih =>
    by_cases ho : o.Name = n
    · rw [find_cons_eq _ _ _ ho] at h; cases h
    · rw [find_cons_ne _ _ _ ho] at h
      rw [List.filter_cons_of_pos (by simp [ho]), ih h]

/-- The four ways one round of `ensureDeleted` can go. -/
theorem ensureDeletedStep_cases (c : String) (idx : Nat) (r : QuotaClient) :
    let n := storageQuotaName c idx
    (∃ e, r.nextFault = some e ∧
        ensureDeletedStep c idx r = (none, r.served (.Get n) (some e) r.objects)) ∨
    (r.nextFault = none ∧ r.lookup n = none ∧
        ensureDeletedStep c idx r = (none, r.served (.Get n) (some .NotFound) r.objects)) ∨
    (∃ cur e, r.nextFault = none ∧ r.lookup n = some cur ∧
        (r.served (.Get n) none r.objects).nextFault = some e ∧
        ensureDeletedStep c idx r
          = (some e, (r.served (.Get n) none r.objects).served (.Delete n) (some e) r.objects)) ∨
    (∃ cur, r.nextFault = none ∧ r.lookup n = some cur ∧
        (r.served (.Get n) none r.objects).nextFault = none ∧
        ensureDeletedStep c idx r
          = (none, (r.served (.Get n) none r.objects).served (.Delete n) none
              (r.objects.filter (fun o => !(o.Name == n))))) := by
  intro n
  cases hf : r.nextFault with
  | some e =>
    left
    exact ⟨e, rfl, by simp [ensureDeletedStep, QuotaClient.Get, hf, n]⟩
  | none =>
    right
    cases hl : r.lookup n with
    | none =>
      left
      exact ⟨rfl, rfl, by simp [ensureDeletedStep, QuotaClient.Get, hf, hl, n]⟩
    | some cur =>
      right
      have hl2 : findQuota r.objects (storageQuotaName c idx) = some cur := hl
      cases hf1 : (r.served (.Get n) none r.objects).nextFault with
      | some e =>
        left
        exact ⟨cur, e, rfl, rfl, rfl, by
          simp [ensureDeletedStep, QuotaClient.Get, hf, hl, QuotaClient.Delete, hf1, n]⟩
      | none =>
        right
        exact ⟨cur, rfl, rfl, rfl, by
          simp [ensureDeletedStep, QuotaClient.Get, hf, hl, QuotaClient.Delete, hf1, hl2, n]⟩

theorem ensureDeletedLoop_nil (c : String) (idx : Nat) (r : QuotaClient) :
    ensureDeletedLoop c idx [] r = (none, r) := rfl

theorem ensureDeletedLoop_cons_none (c : String) (idx : Nat) (op : OverprovisionSpec)
    (ops : List OverprovisionSpec) (r r1 : QuotaClient)
    (h : ensureDeletedStep c idx r = (none, r1)) :
    ensureDeletedLoop c idx (op :: ops) r = ensureDeletedLoop c (idx + 1) ops r1 := by
  rw [ensureDeletedLoop, h]

theorem ensureDeletedLoop_cons_some (c : String) (idx : Nat) (op : OverprovisionSpec)
    (ops : List OverprovisionSpec) (r r1 : QuotaClient) (err : StatusError)
    (h : ensureDeletedStep c idx r = (some err, r1)) :
    ensureDeletedLoop c idx (op :: ops) r = (some err, r1) := by
  rw [ensureDeletedLoop, h]

/-- A round of `ensureDeleted` leaves every other name untouched. -/
theorem ensureDeletedStep_frame (c : String) (idx : Nat) (r : QuotaClient) (name : String)
    (h : name ≠ storageQuotaName c idx) :
    (ensureDeletedStep c idx r).2.lookup name = r.lookup name := by
  rcases ensureDeletedStep_cases c idx r with
    ⟨e, _, hs⟩ | ⟨_, _, hs⟩ | ⟨cur, e, _, _, _, hs⟩ | ⟨cur, _, _, _, hs⟩
  · rw [hs]; rfl
  · rw [hs]; rfl
  · rw [hs]; rfl
  · rw [hs]; exact find_filter_other _ _ _ h

/-- A pass of `ensureDeleted` leaves every name outside its index range untouched. -/
theorem ensureDeletedLoop_frame (c : String) (ops : List OverprovisionSpec) :
    ∀ (idx : Nat) (r : QuotaClient) (name : String),
      (∀ j, j < ops.length → name ≠ storageQuotaName c (idx + j)) →
      (ensureDeletedLoop c idx ops r).2.lookup name = r.lookup name := by
  induction ops with
  | nil => intro idx r name _; rfl
  | cons op ops ih =>
    intro idx r name hne
    have h0 : name ≠ storageQuotaName c idx := by simpa using hne 0 (by simp)
    have hframe := ensureDeletedStep_frame c idx r name h0
    cases hstep : ensureDeletedStep c idx r with
    | mk e r1 =>
      rw [hstep] at hframe
      cases e with
      | some err =>
        rw [ensureDeletedLoop_cons_some c idx op ops r r1 err hstep]
        exact hframe
      | none =>
        rw [ensureDeletedLoop_cons_none c idx op ops r r1 hstep, ih (idx + 1) r1 name]
        · exact hframe
        · intro j hj
          have := hne (j + 1) (by simp; omega)
          rwa [show idx + (j + 1) = idx + 1 + j by omega] at this

/-- On a store that does not fail, a round of `ensureDeleted` succeeds and removes the
objects of its name. -/
theorem ensureDeletedStep_nofault (c : String) (idx : Nat) (r : QuotaClient)
    (hfaults : ∀ f ∈ r.faults, f = none) :
    (ensureDeletedStep c idx r).1 = none ∧
    (ensureDeletedStep c idx r).2.objects
      = r.objects.filter (fun o => !(o.Name == storageQuotaName c idx)) ∧
    (∀ f ∈ (ensureDeletedStep c idx r).2.faults, f = none) := by
  have hf0 := nextFault_none r hfaults
  have hf1 := nextFault_none (r.served (.Get (storageQuotaName c idx)) none r.objects)
    (served_faults_none r _ _ _ hfaults)
  rcases ensureDeletedStep_cases c idx r with
    ⟨e, hf, hs⟩ | ⟨_, hl, hs⟩ | ⟨cur, e, _, _, hf1', hs⟩ | ⟨cur, _, _, _, hs⟩
  · rw [hf0] at hf; cases hf
  · rw [hs]
    exact ⟨rfl, (filter_of_find_none _ _ hl).symm, served_faults_none r _ _ _ hfaults⟩
  · rw [hf1] at hf1'; cases hf1'
  · rw [hs]
    exact ⟨rfl, rfl, served_faults_none _ _ _ _ (served_faults_none r _ _ _ hfaults)⟩

/-- On a store that does not fail, a pass of `ensureDeleted` succeeds and removes exactly
the objects named for its indices. -/
theorem ensureDeletedLoop_nofault (c : String) (ops : List OverprovisionSpec) :
    ∀ (idx : Nat) (r : QuotaClient), (∀ f ∈ r.faults, f = none) →
      (ensureDeletedLoop c idx ops r).1 = none ∧
      (ensureDeletedLoop c idx ops r).2.objects
        = r.objects.filter (fun o =>
            (List.range' idx ops.length).all (fun j => !(o.Name == storageQuotaName c j))) ∧
      (∀ f ∈ (ensureDeletedLoop c idx ops r).2.faults, f = none) := by
  induction ops with
  | nil =>
    intro idx r hfaults
    refine ⟨rfl, ?_, hfaults⟩
    simp [ensureDeletedLoop_nil]
  | cons op ops ih =>
    intro idx r hfaults
    obtain ⟨h1, h2, h3⟩ := ensureDeletedStep_nofault c idx r hfaults
    cases hstep : ensureDeletedStep c idx r with
    | mk e r1 =>
      rw [hstep] at h1 h2 h3
      simp only at h1 h2 h3
      subst h1
      rw [ensureDeletedLoop_cons_none c idx op ops r r1 hstep]
      obtain ⟨g1, g2, g3⟩ := ih (idx + 1) r1 h3
      refine ⟨g1, ?_, g3⟩
      rw [g2, h2, List.filter_filter, List.length_cons, List.range'_succ]
      apply List.filter_congr
      intro o _
      simp only [List.all_cons]
      exact Bool.and_comm _ _

theorem ensureCreatedStep_faults (c : String) (u : Int) (idx : Nat) (op : OverprovisionSpec)
    (r : QuotaClient) :
    ∀ f ∈ (ensureCreatedStep c u idx op r).2.faults, f ∈ r.faults := by
  intro f hf
  rcases ensureCreatedStep_cases c u idx op r with
    ⟨e, _, h⟩ | ⟨e, _, _, _, h⟩ | ⟨_, _, _, h⟩ | ⟨cur, _, _, _, h⟩ |
    ⟨cur, e, _, _, _, _, h⟩ | ⟨cur, _, _, _, _, h⟩ <;> rw [h] at hf
  · exact List.mem_of_mem_tail hf
  · exact List.mem_of_mem_tail (List.mem_of_mem_tail hf)
  · exact List.mem_of_mem_tail (List.mem_of_mem_tail hf)
  · exact List.mem_of_mem_tail hf
  · exact List.mem_of_mem_tail (List.mem_of_mem_tail hf)
  · exact List.mem_of_mem_tail (List.mem_of_mem_tail hf)

theorem ensureCreatedLoop_faults (c : String) (u : Int) (ops : List OverprovisionSpec) :
    ∀ (idx : Nat) (r : QuotaClient),
      ∀ f ∈ (ensureCreatedLoop c u idx ops r).2.faults, f ∈ r.faults := by
  induction ops with
  | nil => intro idx r f hf; exact hf
  | cons op ops ih =>
    intro idx r f hf
    have hstepf := ensureCreatedStep_faults c u idx op r
    cases hstep : ensureCreatedStep c u idx op r with
    | mk e r1 =>
      rw [hstep] at hstepf
      cases e with
      | some err =>
        rw [ensureCreatedLoop_cons_some c u idx op ops r r1 err hstep] at hf
        exact hstepf f hf
      | none =>
        rw [ensureCreatedLoop_cons_none c u idx op ops r r1 hstep] at hf
        exact hstepf f (ih (idx + 1) r1 f hf)

theorem desiredFrom_filter_nil (c : String) (u : Int) (ops : List OverprovisionSpec)
    (idx : Nat) :
    (desiredFrom c u idx ops).filter (fun o =>
      (List.range' idx ops.length).all (fun j => !(o.Name == storageQuotaName c j))) = [] := by
  rw [List.filter_eq_nil_iff]
  intro o ho
  have hmem : o.Name ∈ (desiredFrom c u idx ops).map ClusterResourceQuota.Name :=
    List.mem_map.mpr ⟨o, ho, rfl⟩
  rw [desiredFrom_names] at hmem
  obtain ⟨j, hj, hjn⟩ := List.mem_map.mp hmem
  simp only [List.all_eq_true, Bool.not_eq_true', beq_eq_false_iff_ne, ne_eq, not_forall]
  exact ⟨j, hj, by simp [hjn]⟩

/-- The requests of one round of `ensureCreated`: none is a delete and all address the
round's name. -/
theorem ensureCreatedStep_writes (c : String) (u : Int) (idx : Nat) (op : OverprovisionSpec)
    (r : QuotaClient) :
    ∃ trace, (ensureCreatedStep c u idx op r).2.calls = r.calls ++ trace ∧
      ∀ rec ∈ trace, (∀ n, rec.call ≠ .Delete n) ∧
        rec.call.target = storageQuotaName c idx := by
  rcases ensureCreatedStep_cases c u idx op r with
    ⟨e, _, h⟩ | ⟨e, _, _, _, h⟩ | ⟨_, _, _, h⟩ | ⟨cur, _, _, _, h⟩ |
    ⟨cur, e, _, hl, _, _, h⟩ | ⟨cur, _, hl, _, _, h⟩
  · refine ⟨[⟨.Get (storageQuotaName c idx), some e⟩], by rw [h]; rfl, ?_⟩
    intro rec hrec; simp at hrec; subst hrec
    exact ⟨(fun n hn => by cases hn), rfl⟩
  · refine ⟨[⟨.Get (storageQuotaName c idx), some .NotFound⟩,
      ⟨.Create (storageQuota c u idx op), some e⟩], by rw [h]; simp, ?_⟩
    intro rec hrec; simp at hrec
    rcases hrec with hrec | hrec <;> subst hrec <;> exact ⟨(fun n hn => by cases hn), rfl⟩
  · refine ⟨[⟨.Get (storageQuotaName c idx), some .NotFound⟩,
      ⟨.Create (storageQuota c u idx op), none⟩], by rw [h]; simp, ?_⟩
    intro rec hrec; simp at hrec
    rcases hrec with hrec | hrec <;> subst hrec <;> exact ⟨(fun n hn => by cases hn), rfl⟩
  · refine ⟨[⟨.Get (storageQuotaName c idx), none⟩], by rw [h]; rfl, ?_⟩
    intro rec hrec; simp at hrec; subst hrec
    exact ⟨(fun n hn => by cases hn), rfl⟩
  · refine ⟨[⟨.Get (storageQuotaName c idx), none⟩,
      ⟨.Update { cur with Spec := (storageQuota c u idx op).Spec }, some e⟩],
      by rw [h]; simp, ?_⟩
    intro rec hrec; simp at hrec
    rcases hrec with hrec | hrec <;> subst hrec
    · exact ⟨(fun n hn => by cases hn), rfl⟩
    · exact ⟨(fun n hn => by cases hn), find_some_name r.objects _ cur hl⟩
  · refine ⟨[⟨.Get (storageQuotaName c idx), none⟩,
      ⟨.Update { cur with Spec := (storageQuota c u idx op).Spec }, none⟩],
      by rw [h]; simp, ?_⟩
    intro rec hrec; simp at hrec
    rcases hrec with hrec | hrec <;> subst hrec
    · exact ⟨(fun n hn => by cases hn), rfl⟩
    · exact ⟨(fun n hn => by cases hn), find_some_name r.objects _ cur hl⟩

/-- One round of `ensureCreated` keeps every stored object, with its type, metadata and
status. -/
theorem ensureCreatedStep_preserve (c : String) (u : Int) (idx : Nat) (op : OverprovisionSpec)
    (r : QuotaClient) (name : String) (obj : ClusterResourceQuota)
    (hobj : r.lookup name = some obj) :
    ∃ obj2, (ensureCreatedStep c u idx op r).2.lookup name = some obj2 ∧
      obj2.TypeMeta = obj.TypeMeta ∧ obj2.ObjectMeta = obj.ObjectMeta ∧
      obj2.Status = obj.Status := by
  rcases ensureCreatedStep_cases c u idx op r with
    ⟨e, _, h⟩ | ⟨e, _, _, _, h⟩ | ⟨_, _, _, h⟩ | ⟨cur, _, _, _, h⟩ |
    ⟨cur, e, _, hl, _, _, h⟩ | ⟨cur, _, hl, _, _, h⟩
  · exact ⟨obj, by rw [h]; exact hobj, rfl, rfl, rfl⟩
  · exact ⟨obj, by rw [h]; exact hobj, rfl, rfl, rfl⟩
  · refine ⟨obj, ?_, rfl, rfl, rfl⟩
    rw [h]
    simp only [served_lookup, find_append_single]
    have : findQuota r.objects name = some obj := hobj
    rw [this]
  · exact ⟨obj, by rw [h]; exact hobj, rfl, rfl, rfl⟩
  · exact ⟨obj, by rw [h]; exact hobj, rfl, rfl, rfl⟩
  · have hcn : cur.Name = storageQuotaName c idx := find_some_name r.objects _ cur hl
    have hnm : ClusterResourceQuota.Name { cur with Spec := (storageQuota c u idx op).Spec }
        = cur.Name := rfl
    by_cases hname : name = cur.Name
    · have hoc : obj = cur := by
        have h1 : r.lookup name = some cur := by rw [hname, hcn]; exact hl
        rw [hobj] at h1; injection h1
      subst hoc
      refine ⟨{ obj with Spec := (storageQuota c u idx op).Spec }, ?_, rfl, rfl, rfl⟩
      rw [h]
      simp only [served_lookup]
      have h2 := find_replace_same r.objects { obj with Spec := (storageQuota c u idx op).Spec }
      rw [hnm] at h2
      rw [hname, h2]
      have : findQuota r.objects obj.Name = some obj := by rw [← hname]; exact hobj
      rw [this]; rfl
    · refine ⟨obj, ?_, rfl, rfl, rfl⟩
      rw [h]
      simp only [served_lookup]
      rw [← hnm]
      rw [find_replace_other _ _ _ (by rw [hnm]; exact Ne.symm hname)]
      exact hobj

/-- A pass of `ensureCreated` issues no delete, addresses only the names of its indices,
and keeps every stored object with its type, metadata and status. -/
theorem ensureCreatedLoop_preserve (c : String) (u : Int) (ops : List OverprovisionSpec) :
    ∀ (idx : Nat) (r : QuotaClient),
      (∃ trace, (ensureCreatedLoop c u idx ops r).2.calls = r.calls ++ trace ∧
        ∀ rec ∈ trace, (∀ n, rec.call ≠ .Delete n) ∧
          ∃ i, i < ops.length ∧ rec.call.target = storageQuotaName c (idx + i)) ∧
      (∀ (name : String) (obj : ClusterResourceQuota), r.lookup name = some obj →
        ∃ obj2, (ensureCreatedLoop c u idx ops r).2.lookup name = some obj2 ∧
          obj2.TypeMeta = obj.TypeMeta ∧ obj2.ObjectMeta = obj.ObjectMeta ∧
          obj2.Status = obj.Status) := by
  induction ops with
  | nil =>
    intro idx r
    exact ⟨⟨[], by simp [ensureCreatedLoop_nil], by simp⟩,
      fun name obj h => ⟨obj, h, rfl, rfl, rfl⟩⟩
  | cons op ops ih =>
    intro idx r
    obtain ⟨t0, hcalls, hrecs⟩ := ensureCreatedStep_writes c u idx op r
    have hpres := ensureCreatedStep_preserve c u idx op r
    cases hstep : ensureCreatedStep c u idx op r with
    | mk e r1 =>
      rw [hstep] at hcalls hpres
      cases e with
      | some err =>
        rw [ensureCreatedLoop_cons_some c u idx op ops r r1 err hstep]
        refine ⟨⟨t0, hcalls, ?_⟩, hpres⟩
        intro rec hrec
        exact ⟨(hrecs rec hrec).1, 0, by simp, (hrecs rec hrec).2⟩
      | none =>
        rw [ensureCreatedLoop_cons_none c u idx op ops r r1 hstep]
        obtain ⟨⟨t1, hcalls1, hrecs1⟩, hpres1⟩ := ih (idx + 1) r1
        refine ⟨⟨t0 ++ t1, ?_, ?_⟩, ?_⟩
        · rw [hcalls1]
          have hc : r1.calls = r.calls ++ t0 := hcalls
          rw [hc, List.append_assoc]
        · intro rec hrec
          rcases List.mem_append.mp hrec with h | h
          · exact ⟨(hrecs rec h).1, 0, by simp, (hrecs rec h).2⟩
          · obtain ⟨hnd, i, hi, hti⟩ := hrecs1 rec h
            exact ⟨hnd, i + 1, by simp; omega, by rw [hti]; congr 1; omega⟩
        · intro name obj hobj
          obtain ⟨obj1, h1, ht, hm, hs⟩ := hpres name obj hobj
          obtain ⟨obj2, h2, ht2, hm2, hs2⟩ := hpres1 name obj1 h1
          exact ⟨obj2, h2, ht2.trans ht, hm2.trans hm, hs2.trans hs⟩

theorem digitChar_ne_e (d : Nat) (h : d < 10) : Nat.digitChar d ≠ 'e' := by
  interval_cases d <;> decide

/-- A list is split in one way only around the first occurrence of a marker. -/
theorem split_at_marker (x : Char) : ∀ (l1 l2 r1 r2 : List Char),
    (∀ a ∈ l1, a ≠ x) → (∀ a ∈ l2, a ≠ x) → l1 ++ x :: r1 = l2 ++ x :: r2 →
    l1 = l2 ∧ r1 = r2
  | [], [], r1, r2, _, _, h => by
    simp at h; exact ⟨rfl, h⟩
  | [], b :: l2, r1, r2, _, h2, h => by
    simp at h
    exact absurd h.1.symm (h2 b (by simp))
  | a :: l1, [], r1, r2, h1, _, h => by
    simp at h
    exact absurd h.1 (h1 a (by simp))
  | a :: l1, b :: l2, r1, r2, h1, h2, h => by
    simp only [List.cons_append, List.cons.injEq] at h
    obtain ⟨hl, hr⟩ := split_at_marker x l1 l2 r1 r2
      (fun z hz => h1 z (by simp [hz])) (fun z hz => h2 z (by simp [hz])) h.2
    exact ⟨by rw [h.1, hl], hr⟩

theorem toString_succ_no_e (i : Nat) : ∀ a ∈ (toString (i + 1)).data.reverse, a ≠ 'e' := by
  intro a ha
  rw [toString_eq_digits _ (Nat.succ_pos i)] at ha
  simp only [List.mem_reverse, List.mem_map] at ha
  obtain ⟨d, hd, rfl⟩ := ha
  exact digitChar_ne_e d (Nat.digits_lt_base (by norm_num) hd)

/-- The quota name determines the cluster name and the index. -/
theorem storageQuotaName_inj (c1 c2 : String) (i1 i2 : Nat)
    (h : storageQuotaName c1 i1 = storageQuotaName c2 i2) : c1 = c2 ∧ i1 = i2 := by
  rw [storageQuotaName_eq, storageQuotaName_eq] at h
  have hd := congrArg (fun s => s.data.reverse) h
  simp only [String.data_append, List.reverse_append] at hd
  have hk : "-clusterresourcequota-storage".data.reverse
      = 'e' :: "-clusterresourcequota-storag".data.reverse := by decide
  rw [hk] at hd
  simp only [List.cons_append] at hd
  obtain ⟨hdig, hrest⟩ := split_at_marker 'e' _ _ _ _ (toString_succ_no_e i1)
    (toString_succ_no_e i2) hd
  have hc : c1.data.reverse = c2.data.reverse := List.append_cancel_left hrest
  have hts : toString (i1 + 1) = toString (i2 + 1) :=
    String.ext (List.reverse_injective hdig)
  exact ⟨String.ext (List.reverse_injective hc), toString_succ_inj i1 i2 hts⟩

theorem toInt64_mul_left (a b : Int) : toInt64 (toInt64 a * b) = toInt64 (a * b) := by
  apply toInt64_congr _ _ (-(((a + 9223372036854775808) / 18446744073709551616) * b))
  rw [toInt64_eq_sub a]
  ring

/-- Inside the `int64` range the percentage limit is the formula over the integers. -/
theorem hardLimit_in_range (u : Int) (op : OverprovisionSpec) (hcap : op.Capacity = none)
    (hu : 0 ≤ u) (hp : 0 ≤ op.Percentage)
    (h1 : op.Percentage * u < 9223372036854775808)
    (h2 : u + op.Percentage * u / 100 < 9223372036854775808) :
    (hardLimit u op).value = u + op.Percentage * u / 100 := by
  have hpu : 0 ≤ op.Percentage * u := Int.mul_nonneg hp hu
  unfold hardLimit
  rw [hcap]
  simp only [NewQuantity]
  rw [toInt64_mul_left, toInt64_of_range _ (by omega) h1,
    Int.tdiv_eq_ediv hpu (by norm_num)]
  have hq : 0 ≤ op.Percentage * u / 100 := Int.ediv_nonneg hpu (by norm_num)
  exact toInt64_of_range _ (by omega) h2

theorem contains_iff (s substr : String) :
    strings.Contains s substr = true ↔ ∃ pre post : String, s = pre ++ substr ++ post := by
  unfold strings.Contains
  rw [decide_eq_true_iff]
  constructor
  · rintro ⟨a, b, h⟩
    exact ⟨String.mk a, String.mk b, String.ext (by simp [String.data_append, h])⟩
  · rintro ⟨pre, post, h⟩
    exact ⟨pre.data, post.data, by rw [h]; simp [String.data_append]⟩

theorem isStorageResource_resourceRequestName (s : String) :
    isStorageResource (resourceRequestName s) = true := by
  unfold isStorageResource
  rw [contains_iff]
  unfold resourceRequestName V1ResourceByStorageClass
  by_cases h : s = ""
  · exact ⟨"requests.", "", by simp [h]; decide⟩
  · refine ⟨s ++ storageClassSuffix ++ "requests.", "", ?_⟩
    simp only [beq_iff_eq, h, if_false]
    have : ResourceRequestsStorage = "requests." ++ ResourceStorage := by decide
    rw [this]
    simp [String.append_assoc]

theorem sumStorageResources_eq {F : Type} (add : F → F → F) (asFloat : Quantity → F)
    (m : ResourceList) : ∀ (total : F),
    sumStorageResources add asFloat m total
      = ((m.filter (fun kv => isStorageResource kv.1)).map (fun kv => asFloat kv.2)).foldl
          add total := by
  unfold sumStorageResources
  induction m with
  | nil => intro total; rfl
  | cons kv m ih =>
    intro total
    rw [List.foldl_cons, ih]
    by_cases h : isStorageResource kv.1 = true
    · simp [List.filter_cons, h]
    · simp [List.filter_cons, h]

theorem collectSum_foldl {F : Type} (add : F → F → F) (asFloat : Quantity → F)
    (objs : List ClusterResourceQuota) : ∀ (acc : F × F),
    objs.foldl
      (fun (acc : F × F) storageQuota =>
        (sumStorageResources add asFloat storageQuota.Status.Total.Hard acc.1,
         sumStorageResources add asFloat storageQuota.Status.Total.Used acc.2)) acc
      = ((storageValues asFloat (objs.map (fun o => o.Status.Total.Hard))).foldl add acc.1,
         (storageValues asFloat (objs.map (fun o => o.Status.Total.Used))).foldl add acc.2) := by
  induction objs with
  | nil => intro acc; rfl
  | cons o objs ih =>
    intro acc
    rw [List.foldl_cons, ih]
    simp only [List.map_cons, storageValues, List.foldl_append, sumStorageResources_eq]

theorem foldl_add_eq_sum (l : List Int) : ∀ (a : Int), l.foldl (· + ·) a = a + l.sum := by
  induction l with
  | nil => intro a; simp
  | cons x l ih => intro a; rw [List.foldl_cons, ih, List.sum_cons]; omega

/-! ## The claims, continued -/

/-- C11 fails on the code: with the object of index 0 stored and its get answered with
a server error, `ensureDeleted` returns no error although the object is still there.
Without failures the shrink scenario goes as the claim says: after `ensureCreated` with
two policies, `ensureCreated` with the first policy only and `ensureDeleted` on the
shortened specification, suffix 1 is gone and suffix 2 is kept unchanged; with no
policies both functions return no error and change nothing. -/
theorem ensureDeleted_success_keeps_object :
    (ensureDeleted { staleClient with faults := [some 500] } testClusterOne).1 = none ∧
    (ensureDeleted { staleClient with faults := [some 500] } testClusterOne).2.lookup
      (storageQuotaName "x" 0) = some staleQuota ∧
    (ensureDeleted
      (ensureCreated approxExact (ensureCreated approxExact {} testCluster).2 testClusterOne).2
      testClusterOne).1 = none ∧
    (ensureDeleted
      (ensureCreated approxExact (ensureCreated approxExact {} testCluster).2 testClusterOne).2
      testClusterOne).2.lookup (storageQuotaName "x" 0) = none ∧
    (ensureDeleted
      (ensureCreated approxExact (ensureCreated approxExact {} testCluster).2 testClusterOne).2
      testClusterOne).2.lookup (storageQuotaName "x" 1)
      = (ensureCreated approxExact {} testCluster).2.lookup (storageQuotaName "x" 1) ∧
    ((ensureCreated approxExact {} testCluster).2.lookup (storageQuotaName "x" 1)).isSome
      = true ∧
    ensureCreated approxExact staleClient testClusterNone = (none, staleClient) ∧
    ensureDeleted staleClient testClusterNone = (none, staleClient) := by
  decide

/-- C12: on a store without quota objects whose operations do not fail, `ensureCreated`
followed by `ensureDeleted` with the same specification both return no error and leave
the store without quota objects; a further `ensureDeleted` finds nothing and returns no
error either. -/
theorem ensureCreated_ensureDeleted_roundtrip (approx : Quantity → Int) (r : QuotaClient)
    (sc : StorageCluster) (hempty : r.objects = []) (hfaults : ∀ f ∈ r.faults, f = none) :
    (ensureCreated approx r sc).1 = none ∧
    (ensureDeleted (ensureCreated approx r sc).2 sc).1 = none ∧
    (ensureDeleted (ensureCreated approx r sc).2 sc).2.objects = [] ∧
    (ensureDeleted (ensureDeleted (ensureCreated approx r sc).2 sc).2 sc).1 = none ∧
    (ensureDeleted (ensureDeleted (ensureCreated approx r sc).2 sc).2 sc).2.objects = [] := by
  obtain ⟨h1, h2⟩ := ensureCreatedLoop_fresh sc.Name (calcUseableCapacity approx sc)
    sc.Spec.Overprovision 0 r hfaults (by
      intro j _
      show findQuota r.objects _ = none
      rw [hempty]; rfl)
  have hf1 : ∀ f ∈ (ensureCreated approx r sc).2.faults, f = none := fun f hf =>
    hfaults f (ensureCreatedLoop_faults _ _ _ 0 r f hf)
  obtain ⟨d1, d2, d3⟩ := ensureDeletedLoop_nofault sc.Name sc.Spec.Overprovision 0
    (ensureCreated approx r sc).2 hf1
  have hobj : (ensureDeleted (ensureCreated approx r sc).2 sc).2.objects = [] := by
    show (ensureDeletedLoop _ _ _ _).2.objects = []
    rw [d2]
    show ((ensureCreatedLoop _ _ _ _ _).2.objects).filter _ = []
    rw [h2, hempty, List.nil_append]
    exact desiredFrom_filter_nil _ _ _ 0
  obtain ⟨e1, e2, _⟩ := ensureDeletedLoop_nofault sc.Name sc.Spec.Overprovision 0
    (ensureDeleted (ensureCreated approx r sc).2 sc).2 d3
  refine ⟨h1, d1, hobj, e1, ?_⟩
  show (ensureDeletedLoop _ _ _ _).2.objects = []
  rw [e2, hobj]; rfl

theorem ensureCreated_ensureDeleted_roundtrip_witness :
    (ensureCreated approxExact {} testCluster).1 = none ∧
    (ensureDeleted (ensureCreated approxExact {} testCluster).2 testCluster).1 = none ∧
    (ensureDeleted (ensureCreated approxExact {} testCluster).2 testCluster).2.objects = [] ∧
    (ensureDeleted (ensureDeleted (ensureCreated approxExact {} testCluster).2 testCluster).2
      testCluster).1 = none ∧
    (ensureDeleted (ensureDeleted (ensureCreated approxExact {} testCluster).2 testCluster).2
      testCluster).2.objects = [] :=
  ensureCreated_ensureDeleted_roundtrip approxExact {} testCluster rfl (by decide)

/-- C13: for every cache content `collectSumStorageQuotas` returns as hard total the sum,
over the cached objects and the entries of `status.total.hard` whose key contains
`storage`, of the entry values, added up from zero in the order they are visited, and as
used total the same sum over `status.total.used`; other keys add nothing, the hard total
is determined by the hard maps alone and the used total by the used maps alone, and an
empty cache gives `(0, 0)`.  With exact addition the totals are plain sums; hard maps
`requests.storage: 5Ti` and `a.storageclass.storage.k8s.io/requests.storage: 3Ti`
give the hard total 8Ti. -/
theorem collectSumStorageQuotas_totals {F : Type} (zero : F) (add : F → F → F)
    (asFloat : Quantity → F) (c : StorageQuotaCollector) (informer : SharedIndexInformer) :
    ({ c with Informer := some informer }).collectSumStorageQuotas zero add asFloat
      = some
        ((storageValues asFloat (informer.store.map (fun o => o.Status.Total.Hard))).foldl
            add zero,
         (storageValues asFloat (informer.store.map (fun o => o.Status.Total.Used))).foldl
            add zero) ∧
    (∀ asInt : Quantity → Int,
      ({ c with Informer := some informer }).collectSumStorageQuotas 0 (· + ·) asInt
        = some
          ((storageValues asInt (informer.store.map (fun o => o.Status.Total.Hard))).sum,
           (storageValues asInt (informer.store.map (fun o => o.Status.Total.Used))).sum)) ∧
    (∀ m : ResourceList, (∀ kv ∈ m, isStorageResource kv.1 = false) →
      storageValues asFloat [m] = []) ∧
    ({ c with Informer := some { informer with store := [] } }).collectSumStorageQuotas
      zero add asFloat = some (zero, zero) ∧
    (collectorWith testCache).collectSumStorageQuotas (0 : Int) (· + ·) (fun q => q.value)
      = some (8 * 2 ^ 40, 2 ^ 40) := by
  have hgen : ∀ {G : Type} (z : G) (ad : G → G → G) (asG : Quantity → G),
      ({ c with Informer := some informer }).collectSumStorageQuotas z ad asG
        = some
          ((storageValues asG (informer.store.map (fun o => o.Status.Total.Hard))).foldl ad z,
           (storageValues asG (informer.store.map (fun o => o.Status.Total.Used))).foldl
              ad z) := by
    intro G z ad asG
    unfold StorageQuotaCollector.collectSumStorageQuotas StorageQuotaCollector.listStorageQuotas
    simp only [Option.map_some']
    rw [collectSum_foldl]
  refine ⟨hgen zero add asFloat, ?_, ?_, rfl, by decide⟩
  · intro asInt
    rw [hgen, foldl_add_eq_sum, foldl_add_eq_sum]
    simp
  · intro m hm
    simp only [storageValues, List.append_nil, List.map_eq_nil_iff, List.filter_eq_nil_iff]
    intro kv hkv
    rw [hm kv hkv]; simp

theorem collectSumStorageQuotas_totals_witness :
    storageValues (fun q => q.value) [[("cpu", ⟨100⟩), ("pods", ⟨7⟩)]] = [] :=
  (collectSumStorageQuotas_totals (0 : Int) (· + ·) (fun q => q.value) (collectorWith [])
    {}).2.2.1 [("cpu", ⟨100⟩), ("pods", ⟨7⟩)] (by decide)

/-- C14: the collector built after a failed client construction is disabled; a disabled
collector sends no descriptor from `Describe` and no sample from `Collect`; an enabled
collector, whatever its informer holds, sends exactly two descriptors from `Describe`,
hard then used, and exactly two samples from `Collect`, carrying the hard and the used
total of `collectSumStorageQuotas` in that order; `Run`, `Describe` and `Collect` leave
the `Enabled` flag as it is. -/
theorem collector_enabled_contract {F : Type} (zero : F) (add : F → F → F)
    (asFloat : Quantity → F) (c : StorageQuotaCollector) (informer : SharedIndexInformer)
    (dch : List (Option Desc)) (mch : List (Metric F)) :
    (∀ err, (NewStorageQuotaCollector (some err)).Enabled = false) ∧
    (NewStorageQuotaCollector none).Enabled = true ∧
    (c.Enabled = false →
      c.Describe dch = (c, dch) ∧ c.Collect zero add asFloat mch = some (c, mch) ∧
      c.Run = some c) ∧
    (collectorOf informer).Describe dch
      = (collectorOf informer,
         dch ++ [some ⟨"ocs_clusterresourcequota_storage_hard",
                       "OCS hard-limit value for ClusterResourceQuota:storage"⟩,
                 some ⟨"ocs_clusterresourcequota_storage_used",
                       "OCS currently-used value for ClusterResourceQuota:storage"⟩]) ∧
    (∃ hard used,
      (collectorOf informer).collectSumStorageQuotas
        zero add asFloat = some (hard, used) ∧
      (collectorOf informer).Collect
        zero add asFloat mch
        = some (collectorOf informer,
            mch ++ [⟨⟨"ocs_clusterresourcequota_storage_hard",
                      "OCS hard-limit value for ClusterResourceQuota:storage"⟩,
                     .GaugeValue, hard⟩,
                    ⟨⟨"ocs_clusterresourcequota_storage_used",
                      "OCS currently-used value for ClusterResourceQuota:storage"⟩,
                     .GaugeValue, used⟩])) ∧
    (c.Describe dch).1.Enabled = c.Enabled ∧
    (∀ c2 out, c.Collect zero add asFloat mch = some (c2, out) → c2.Enabled = c.Enabled) ∧
    (∀ c2, c.Run = some c2 → c2.Enabled = c.Enabled) := by
  refine ⟨fun _ => rfl, rfl, ?_, ?_, ?_, ?_, ?_, ?_⟩
  · intro h
    simp [StorageQuotaCollector.Describe, StorageQuotaCollector.Collect,
      StorageQuotaCollector.Run, h]
  · simp [StorageQuotaCollector.Describe, collectorOf, NewStorageQuotaCollector]
  · cases hsum : (collectorOf informer).collectSumStorageQuotas zero add asFloat with
    | none =>
      simp [StorageQuotaCollector.collectSumStorageQuotas,
        StorageQuotaCollector.listStorageQuotas, collectorOf] at hsum
    | some p =>
      refine ⟨p.1, p.2, rfl, ?_⟩
      unfold StorageQuotaCollector.Collect
      rw [hsum]
      simp [MustNewConstMetric, collectorOf, NewStorageQuotaCollector]
  · unfold StorageQuotaCollector.Describe
    split <;> rfl
  · intro c2 out hc
    unfold StorageQuotaCollector.Collect at hc
    split at hc
    · split at hc
      · cases hc
      · split at hc
        · cases hc
        · split at hc
          · cases hc
          · injection hc with hc
            injection hc with h1 _
            rw [← h1]
    · injection hc with hc
      injection hc with h1 _
      rw [← h1]
  · intro c2 hr
    unfold StorageQuotaCollector.Run at hr
    split at hr
    · split at hr
      · injection hr with hr; rw [← hr]
      · cases hr
    · injection hr with hr; rw [← hr]

theorem collector_enabled_contract_witness :
    (NewStorageQuotaCollector (some "bad kubeconfig")).Describe [] =
        (NewStorageQuotaCollector (some "bad kubeconfig"), []) ∧
      (NewStorageQuotaCollector (some "bad kubeconfig")).Collect (0 : Int) (· + ·)
        (fun q => q.value) [] = some (NewStorageQuotaCollector (some "bad kubeconfig"), []) ∧
      (NewStorageQuotaCollector (some "bad kubeconfig")).Run =
        some (NewStorageQuotaCollector (some "bad kubeconfig")) :=
  (collector_enabled_contract (0 : Int) (· + ·) (fun q => q.value)
    (NewStorageQuotaCollector (some "bad kubeconfig")) {} [] []).2.2.1 rfl

/-- C15 fails on the code: the failing delete of index 1 is returned at once and nothing
is requested after it, but the object of index 0, which existed, has not been deleted,
because the failed get of index 0 was passed over. -/
theorem ensureDeleted_delete_error_after_skipped_get :
    (ensureDeleted
      { objects := (ensureCreated approxExact {} testCluster).2.objects
        faults := [some 500, none, some 7] } testCluster).1 = some (.Other 7) ∧
    (ensureDeleted
      { objects := (ensureCreated approxExact {} testCluster).2.objects
        faults := [some 500, none, some 7] } testCluster).2.calls
      = [⟨.Get "x-clusterresourcequota-storage1", some (.Other 500)⟩,
         ⟨.Get "x-clusterresourcequota-storage2", none⟩,
         ⟨.Delete "x-clusterresourcequota-storage2", some (.Other 7)⟩] ∧
    ((ensureCreated approxExact {} testCluster).2.lookup (storageQuotaName "x" 0)).isSome
      = true ∧
    (ensureDeleted
      { objects := (ensureCreated approxExact {} testCluster).2.objects
        faults := [some 500, none, some 7] } testCluster).2.lookup (storageQuotaName "x" 0)
      = (ensureCreated approxExact {} testCluster).2.lookup (storageQuotaName "x" 0) := by
  decide

/-- C16: `ensureCreated` issues no delete and every request it issues addresses
`storageQuotaName(cluster, i)` for some `i < N`; an object under any other name is
neither created nor modified; and every object stored before the call is still stored
afterwards with the same name, type, metadata and status, so an update replaces the
spec only. -/
theorem ensureCreated_frame (approx : Quantity → Int) (r : QuotaClient) (sc : StorageCluster) :
    (∃ trace, (ensureCreated approx r sc).2.calls = r.calls ++ trace ∧
      ∀ rec ∈ trace, (∀ n, rec.call ≠ .Delete n) ∧
        ∃ i, i < sc.Spec.Overprovision.length ∧
          rec.call.target = storageQuotaName sc.Name i) ∧
    (∀ name, (∀ i, i < sc.Spec.Overprovision.length → name ≠ storageQuotaName sc.Name i) →
      (ensureCreated approx r sc).2.lookup name = r.lookup name) ∧
    (∀ (name : String) (obj : ClusterResourceQuota), r.lookup name = some obj →
      ∃ obj2, (ensureCreated approx r sc).2.lookup name = some obj2 ∧
        obj2.Name = obj.Name ∧ obj2.TypeMeta = obj.TypeMeta ∧
        obj2.ObjectMeta = obj.ObjectMeta ∧ obj2.Status = obj.Status) := by
  obtain ⟨⟨trace, hcalls, hrecs⟩, hpres⟩ := ensureCreatedLoop_preserve sc.Name
    (calcUseableCapacity approx sc) sc.Spec.Overprovision 0 r
  refine ⟨⟨trace, hcalls, ?_⟩, ?_, ?_⟩
  · intro rec hrec
    obtain ⟨hnd, i, hi, hti⟩ := hrecs rec hrec
    exact ⟨hnd, i, hi, by simpa using hti⟩
  · intro name hne
    exact ensureCreatedLoop_frame sc.Name (calcUseableCapacity approx sc)
      sc.Spec.Overprovision 0 r name (by simpa using hne)
  · intro name obj hobj
    obtain ⟨obj2, h2, ht, hm, hs⟩ := hpres name obj hobj
    exact ⟨obj2, h2, by unfold ClusterResourceQuota.Name; rw [hm], ht, hm, hs⟩

theorem ensureCreated_frame_witness :
    ∃ obj2, (ensureCreated approxExact staleClient testCluster).2.lookup
        "x-clusterresourcequota-storage1" = some obj2 ∧
      obj2.Name = staleQuota.Name ∧ obj2.TypeMeta = staleQuota.TypeMeta ∧
      obj2.ObjectMeta = staleQuota.ObjectMeta ∧ obj2.Status = staleQuota.Status :=
  (ensureCreated_frame approxExact staleClient testCluster).2.2
    "x-clusterresourcequota-storage1" staleQuota (by decide)

/-- C17: every resource key the reconciler writes is counted by the aggregator:
`isStorageResource(resourceRequestName(s))` holds for every storage class name `s`;
and `isStorageResource(k)` holds exactly when `k` contains `storage` as a substring, so
`requests.ephemeral-storage` is counted as well. -/
theorem isStorageResource_counts_written_keys (s k : String) :
    isStorageResource (resourceRequestName s) = true ∧
    (isStorageResource k = true ↔ ∃ pre post : String, k = pre ++ "storage" ++ post) ∧
    isStorageResource "requests.ephemeral-storage" = true ∧
    isStorageResource "cpu" = false :=
  ⟨isStorageResource_resourceRequestName s, contains_iff k "storage", by decide, by decide⟩

/-- C18: `storageQuotaName` is injective: two names are equal exactly when the cluster
names and the indices are equal; hence the N names of one pass are pairwise distinct,
and names built from different cluster names never coincide. -/
theorem storageQuotaName_injective (c1 c2 : String) (i1 i2 N : Nat) :
    (storageQuotaName c1 i1 = storageQuotaName c2 i2 ↔ c1 = c2 ∧ i1 = i2) ∧
    ((List.range N).map (storageQuotaName c1)).Nodup ∧
    (c1 ≠ c2 → storageQuotaName c1 i1 ≠ storageQuotaName c2 i2) := by
  refine ⟨⟨storageQuotaName_inj c1 c2 i1 i2, fun h => by rw [h.1, h.2]⟩, ?_, ?_⟩
  · apply List.Nodup.map _ (List.nodup_range N)
    intro i j h
    exact (storageQuotaName_inj c1 c1 i j h).2
  · intro hne h
    exact hne (storageQuotaName_inj c1 c2 i1 i2 h).1

theorem storageQuotaName_injective_witness :
    storageQuotaName "x" 0 ≠ storageQuotaName "x-clusterresourcequota-storage1" 1 :=
  (storageQuotaName_injective "x" "x-clusterresourcequota-storage1" 0 1 2).2.2 (by decide)

/-- C19: for useable capacity `u ≥ 0` and percentage `p ≥ 0` with `p * u` and
`u + (p * u) / 100` inside the signed 64-bit range, the percentage-derived hard limit is
`u + (p * u) / 100`; it is at least `u`, equals `u` for `p = 0` and `2u` for `p = 100`,
and does not decrease when `p` or `u` grows inside that range.  Outside the range the
product wraps: the limit can come out below `u` and can come out negative. -/
theorem hardLimit_bounds (u : Int) (op : OverprovisionSpec) (hcap : op.Capacity = none)
    (hu : 0 ≤ u) (hp : 0 ≤ op.Percentage)
    (h1 : op.Percentage * u < 9223372036854775808)
    (h2 : u + op.Percentage * u / 100 < 9223372036854775808) :
    (hardLimit u op).value = u + op.Percentage * u / 100 ∧
    u ≤ (hardLimit u op).value ∧
    (op.Percentage = 0 → (hardLimit u op).value = u) ∧
    (op.Percentage = 100 → (hardLimit u op).value = 2 * u) ∧
    (∀ op2 : OverprovisionSpec, op2.Capacity = none → op.Percentage ≤ op2.Percentage →
      op2.Percentage * u < 9223372036854775808 →
      u + op2.Percentage * u / 100 < 9223372036854775808 →
      (hardLimit u op).value ≤ (hardLimit u op2).value) ∧
    (∀ u2 : Int, u ≤ u2 → op.Percentage * u2 < 9223372036854775808 →
      u2 + op.Percentage * u2 / 100 < 9223372036854775808 →
      (hardLimit u op).value ≤ (hardLimit u2 op).value) ∧
    (hardLimit (2 ^ 62) { Percentage := 2, Selector := testSelector "a" }).value < 2 ^ 62 ∧
    (hardLimit 90000000000000000 { Percentage := 103, Selector := testSelector "a" }).value
      < 0 := by
  have hv := hardLimit_in_range u op hcap hu hp h1 h2
  have hpu : 0 ≤ op.Percentage * u := Int.mul_nonneg hp hu
  have hq : 0 ≤ op.Percentage * u / 100 := Int.ediv_nonneg hpu (by norm_num)
  refine ⟨hv, by rw [hv]; omega, ?_, ?_, ?_, ?_, by decide, by decide⟩
  · intro h0
    rw [hv, h0]; simp
  · intro h100
    rw [hv, h100]
    have : 100 * u / 100 = u := Int.mul_ediv_cancel_left u (by norm_num)
    rw [this]; ring
  · intro op2 hcap2 hle g1 g2
    rw [hv, hardLimit_in_range u op2 hcap2 hu (Int.le_trans hp hle) g1 g2]
    have hm : op.Percentage * u ≤ op2.Percentage * u := Int.mul_le_mul_of_nonneg_right hle hu
    have := Int.ediv_le_ediv (by norm_num : (0 : Int) < 100) hm
    omega
  · intro u2 hle g1 g2
    rw [hv, hardLimit_in_range u2 op hcap (Int.le_trans hu hle) hp g1 g2]
    have hm : op.Percentage * u ≤ op.Percentage * u2 := Int.mul_le_mul_of_nonneg_left hle hp
    have := Int.ediv_le_ediv (by norm_num : (0 : Int) < 100) hm
    omega

theorem hardLimit_bounds_witness :
    (hardLimit (2 * 2 ^ 40) { Percentage := 50, Selector := testSelector "a" }).value
      = 2 * 2 ^ 40 + 50 * (2 * 2 ^ 40) / 100 ∧
    2 * 2 ^ 40 ≤ (hardLimit (2 * 2 ^ 40) { Percentage := 50, Selector := testSelector "a" }).value :=
  have h := hardLimit_bounds (2 * 2 ^ 40) { Percentage := 50, Selector := testSelector "a" } rfl
    (by decide) (by decide) (by decide) (by decide)
  ⟨h.1, h.2.1⟩

end StorageQuota
